import Mathlib

/-!
# The message framing of `pkg/core/message.go`

A shallow embedding of `write`, `read`, `Send` and `Receive`, together with the parts of the
Go standard library they call (`binary.Write`, `binary.Read`, `io.ReadFull`,
`io.ReadAtLeast`, `strings.Split`).

Conventions of the embedding:

* a Go `string` and a `[]byte` are lists of bytes, a byte is a `Fin 256`;
* a `uint64` is a natural number taken modulo `2 ^ 64`, an `int` is 64 bits wide;
* an `io.Writer` and an `io.Reader` are state machines: a state and a function for one call of
  `Write` or `Read`; a `Read` may return, or panic;
* the two loops of the standard library that call `Read` until enough bytes arrived take a bound
  on the number of `Read` calls of one loop (`fuel`), and yield `none` when it is exceeded;
* the process-wide logger is an explicit list of lines;
* a panic carries a non-nil value (from Go 1.21 on `panic(nil)` raises a `*runtime.PanicNilError`);
  what `debug.Stack()` returns is a parameter `stk`;
* `make([]byte, int(n))` in `read`, whose size comes from the transport, follows the runtime:
  it panics above the allocation limit and ends the process when memory is short, as told by
  a parameter `rt`; the other allocations (buffers of one and eight bytes, conversions between
  a string and bytes that are already held) are taken to succeed;
* `fmt.Sprintf` is a parameter of `Errorf` and `Logf`; a fragment of it (`%d`, `%s`, `%%`) is
  defined for the examples.
-/

namespace Core

/-! ## Data model -/

abbrev Byte := Fin 256

/-- A Go string: an immutable sequence of bytes. -/
abbrev Text := List Byte

/-- Source: `type MessageType byte`. -/
abbrev MessageType := Byte

namespace MessageType

/-- Source: `Error MessageType = iota + 1`. -/
def Error : MessageType := 1
def Log : MessageType := 2
def Call : MessageType := 3
def Hijack : MessageType := 4
def ReadLineRequest : MessageType := 5
def ReadLineResponse : MessageType := 6

end MessageType

/-- Source: `type Message struct { Type MessageType; Body string }`; the field `Type` is
named `Typ` here. -/
structure Message where
  Typ : MessageType
  Body : Text
  deriving DecidableEq, Repr

/-- The bytes of an ASCII string literal. -/
def ascii (s : String) : Text := s.toList.map (fun c => Fin.ofNat c.toNat)

/-- The error values that occur: the three sentinel errors of package `io` that
`io.ReadAtLeast` can produce, the error of package `binary` for a value that is not of fixed
size, any other error value of a transport (told apart by a code), and the value
`errors.New(msg)` that the deferred function of `read` creates. -/
inductive GoError where
  | EOF
  | ErrUnexpectedEOF
  | ErrShortBuffer
  | invalidType
  | transport (code : Nat)
  | recovered (msg : Text)
  deriving DecidableEq, Repr

/-- A value passed to `panic`, as `%s` prints it. -/
structure Fault where
  text : Text
  deriving DecidableEq, Repr

/-- The arguments of `write` and the pointees of the arguments of `read`: a `MessageType`
(kind uint8), a `uint64`, or a `string`. -/
inductive Value where
  | tag (t : MessageType)
  | uint64 (n : Nat)
  | string (s : Text)
  deriving DecidableEq, Repr

/-! ## Big-endian integers (package `encoding/binary`) -/

/-- `binary.BigEndian.PutUint64`: byte `i` of the result is `byte(v >> (56 - 8 i))`. -/
def be64 (n : Nat) : List Byte :=
  let v := n % 2 ^ 64
  [Fin.ofNat (v / 2 ^ 56), Fin.ofNat (v / 2 ^ 48), Fin.ofNat (v / 2 ^ 40),
   Fin.ofNat (v / 2 ^ 32), Fin.ofNat (v / 2 ^ 24), Fin.ofNat (v / 2 ^ 16),
   Fin.ofNat (v / 2 ^ 8), Fin.ofNat v]

/-- `binary.BigEndian.Uint64`: the first byte is the most significant one. -/
def beUint64 (bs : List Byte) : Nat :=
  bs.foldl (fun acc b => acc * 256 + b.val) 0

/-- The conversion `int(n)` of a `uint64` on a platform with 64-bit `int`. -/
def intOfUint64 (n : Nat) : Int :=
  if n % 2 ^ 64 < 2 ^ 63 then ((n % 2 ^ 64 : Nat) : Int) else ((n % 2 ^ 64 : Nat) : Int) - 2 ^ 64

/-- The encoding `binary.Write` gives a value of fixed size; a string has none. -/
def encodeFixed : Value → Option (List Byte)
  | .tag t => some [t]
  | .uint64 n => some (be64 n)
  | .string _ => none

/-! ## Writing -/

/-- One call `Write(p)` of an `io.Writer` in state `w`: the count `n`, the error, and the next
state. -/
structure Writer (ω : Type) where
  Write : ω → List Byte → (Nat × Option GoError) × ω

/-- A record of one `Write` call: the slice passed, and what the call returned. -/
structure WriteCall where
  payload : List Byte
  n : Nat
  err : Option GoError
  deriving DecidableEq, Repr

/-- `binary.Write(w, binary.BigEndian, data)`: a value that is not of fixed size is an error
before anything is written; otherwise the encoding is passed to one `Write` call, whose error
is returned and whose count is dropped. -/
def binaryWrite {ω : Type} (W : Writer ω) (w : ω) (v : Value) :
    Option GoError × ω × List WriteCall :=
  match encodeFixed v with
  | none => (some .invalidType, w, [])
  | some bs =>
    match W.Write w bs with
    | ((n, err), w1) => (err, w1, [⟨bs, n, err⟩])

/-- The call `write(dst, uint64(len(val)))` made for a string: its one argument is not a string,
takes the default case, and the loop ends. -/
def writeUint64Call {ω : Type} (W : Writer ω) (w : ω) (n : Nat) :
    Option GoError × ω × List WriteCall :=
  match binaryWrite W w (.uint64 n) with
  | (some e, w1, t1) => (some e, w1, t1)
  | (none, w1, t1) => (none, w1, t1)

/-- Source: `func write(dst io.Writer, args ...interface{}) error`. Returns the error, the
state of the writer afterwards, and the `Write` calls issued, in order. -/
def write {ω : Type} (W : Writer ω) : ω → List Value → Option GoError × ω × List WriteCall
  | w, [] => (none, w, [])
  | w, .string val :: rest =>
    match writeUint64Call W w val.length with
    | (some e, w1, t1) => (some e, w1, t1)
    | (none, w1, t1) =>
      match W.Write w1 val with
      | ((n, some e), w2) => (some e, w2, t1 ++ [⟨val, n, some e⟩])
      | ((n, none), w2) =>
        match write W w2 rest with
        | (err, w3, t3) => (err, w3, t1 ++ ⟨val, n, none⟩ :: t3)
  | w, .tag t :: rest =>
    match binaryWrite W w (.tag t) with
    | (some e, w1, t1) => (some e, w1, t1)
    | (none, w1, t1) =>
      match write W w1 rest with
      | (err, w2, t2) => (err, w2, t1 ++ t2)
  | w, .uint64 n :: rest =>
    match binaryWrite W w (.uint64 n) with
    | (some e, w1, t1) => (some e, w1, t1)
    | (none, w1, t1) =>
      match write W w1 rest with
      | (err, w2, t2) => (err, w2, t1 ++ t2)

/-- Source: `func Send(dst io.Writer, msg Message) error`. -/
def Send {ω : Type} (W : Writer ω) (w : ω) (msg : Message) :
    Option GoError × ω × List WriteCall :=
  write W w [.tag msg.Typ, .string msg.Body]

/-- An in-memory writer that never fails (`bytes.Buffer`): the state is what was written. -/
def bufWriter : Writer (List Byte) where
  Write w p := ((p.length, none), w ++ p)

/-- The bytes a sequence of `Write` calls presented to the writer. -/
def presented (calls : List WriteCall) : List Byte :=
  (calls.map (fun c => c.payload)).flatten

/-- The bytes a sequence of `Write` calls reports as accepted: the first `n` of each slice. -/
def accepted (calls : List WriteCall) : List Byte :=
  (calls.map (fun c => c.payload.take c.n)).flatten

/-- The wire format of one frame as the specification gives it: one byte of `MessageType`,
eight bytes of big-endian unsigned length, the bytes of the body. -/
def frame (m : Message) : List Byte :=
  m.Typ :: (be64 m.Body.length ++ m.Body)

/-! ## Reading -/

/-- What one call `Read(p)` of an `io.Reader` does: it returns the bytes it stored at the start
of `p` (so `n` is their number) and an error, or it panics. -/
inductive ReadOutcome where
  | ret (data : List Byte) (err : Option GoError)
  | fault (f : Fault)
  deriving DecidableEq, Repr

/-- An `io.Reader`: one call `Read(p)` in state `s` with `len(p) = k`. No more than `k` bytes
fit into `p`: the callers below keep the first `k` bytes of `data`. -/
structure Reader (σ : Type) where
  Read : σ → Nat → ReadOutcome × σ

/-- How a call ends that has no deferred function of its own: it returns, or a panic passes
through it. -/
inductive Call (α : Type) where
  | ret (a : α)
  | panicked (f : Fault)
  deriving DecidableEq, Repr

/-- The result of `io.ReadAtLeast` once its loop has ended with `buf[:n]` filled and `err`
the error of the last `Read`: `if n >= min { err = nil } else if n > 0 && err == EOF
{ err = ErrUnexpectedEOF }`. -/
def readAtLeastErr (min : Nat) (buf : List Byte) (err : Option GoError) : Option GoError :=
  if buf.length ≥ min then none
  else if buf.length > 0 ∧ err = some .EOF then some .ErrUnexpectedEOF
  else err

/-- The loop `for n < min && err == nil { nn, err = r.Read(buf[n:]); n += nn }` of
`io.ReadAtLeast`; `buf` is the part of the buffer filled so far and `fuel` bounds the number
of `Read` calls. -/
def readAtLeastLoop {σ : Type} (R : Reader σ) (bufLen min : Nat) :
    Nat → σ → List Byte → Option GoError → Option (Call (List Byte × Option GoError) × σ)
  | 0, s, buf, err =>
    if buf.length < min ∧ err = none then none
    else some (.ret (buf, readAtLeastErr min buf err), s)
  | fuel + 1, s, buf, err =>
    if buf.length < min ∧ err = none then
      match R.Read s (bufLen - buf.length) with
      | (.fault f, s1) => some (.panicked f, s1)
      | (.ret data e, s1) =>
        readAtLeastLoop R bufLen min fuel s1 (buf ++ data.take (bufLen - buf.length)) e
    else some (.ret (buf, readAtLeastErr min buf err), s)

/-- `io.ReadAtLeast(r, buf, min)` with `len(buf) = bufLen`: the filled part of `buf` and the
error. -/
def ReadAtLeast {σ : Type} (R : Reader σ) (fuel : Nat) (s : σ) (bufLen min : Nat) :
    Option (Call (List Byte × Option GoError) × σ) :=
  if bufLen < min then some (.ret ([], some .ErrShortBuffer), s)
  else readAtLeastLoop R bufLen min fuel s [] none

/-- `io.ReadFull(r, buf)` is `ReadAtLeast(r, buf, len(buf))`. -/
def ReadFull {σ : Type} (R : Reader σ) (fuel : Nat) (s : σ) (bufLen : Nat) :
    Option (Call (List Byte × Option GoError) × σ) :=
  ReadAtLeast R fuel s bufLen bufLen

/-- A buffer of `bufLen` bytes, allocated zeroed, whose first bytes are `filled`. -/
def bufferOf (bufLen : Nat) (filled : List Byte) : List Byte :=
  filled ++ List.replicate (bufLen - filled.length) 0

/-- `binary.Read(r, binary.BigEndian, data)` for `data` pointing to `v`: a buffer of the size of
the value is filled by `io.ReadFull`; on an error the pointee is left as it is, otherwise the
decoded value is stored. A `*string` is an invalid type, found before anything is read.
Returns the pointee afterwards and the error. -/
def binaryRead {σ : Type} (R : Reader σ) (fuel : Nat) (s : σ) (v : Value) :
    Option (Call (Value × Option GoError) × σ) :=
  match v with
  | .string _ => some (.ret (v, some .invalidType), s)
  | .tag _ =>
    match ReadFull R fuel s 1 with
    | none => none
    | some (.panicked f, s1) => some (.panicked f, s1)
    | some (.ret (_, some e), s1) => some (.ret (v, some e), s1)
    | some (.ret (bs, none), s1) => some (.ret (.tag ((bufferOf 1 bs).headD 0), none), s1)
  | .uint64 _ =>
    match ReadFull R fuel s 8 with
    | none => none
    | some (.panicked f, s1) => some (.panicked f, s1)
    | some (.ret (_, some e), s1) => some (.ret (v, some e), s1)
    | some (.ret (bs, none), s1) => some (.ret (.uint64 (beUint64 (bufferOf 8 bs)), none), s1)

/-! ### The deferred function of `read` -/

/-- The lines of the process-wide logger. -/
abbrev Log := List Text

/-- `strings.Split(s, "\n")`: the pieces between the newlines; one more piece than there are
newlines. -/
def splitLines : Text → List Text
  | [] => [[]]
  | b :: bs =>
    if b = 10 then [] :: splitLines bs
    else
      match splitLines bs with
      | [] => [[b]]
      | l :: ls => (b :: l) :: ls

/-- The text `msg` that the deferred function formats for the recovered value `r` and the stack
trace `stk`. -/
def panicMessage (stk : Text) (r : Fault) : Text :=
  ascii "Recovered from panic: " ++ r.text ++ ascii "\n\nStack trace:\n" ++ stk ++
    ascii ("\n\nWARNING: This panic was likely caused by an RPC method with improperly type " ++
      "or args mapping in cmd.go\n")

/-- How the body of `read` ends: by a `return` with the named result `err` as it then is, or by
a panic, raised while the named result `err` held `pending`. -/
inductive Exit where
  | returned (err : Option GoError)
  | panicked (f : Fault) (pending : Option GoError)
  deriving DecidableEq, Repr

/-- The deferred function of `read`: when `recover()` gives a value `r`, the message is built;
if `err != nil` each line of the message goes to `log.Error` and `err` stays, otherwise `err`
becomes `errors.New(msg)`. Returns the result `err` of `read` and the log. -/
def recoverHandler (stk : Text) (x : Exit) (log : Log) : Option GoError × Log :=
  match x with
  | .returned err => (err, log)
  | .panicked r err =>
    let msg := panicMessage stk r
    match err with
    | some e => (some e, log ++ splitLines msg)
    | none => (some (.recovered msg), log)

/-! ### Allocation -/

/-- What `make([]byte, k)` does: it gives the slice, it panics with the run-time error
`makeslice: len out of range`, or the runtime ends the process with the fatal error
`out of memory`. -/
inductive MakeOutcome where
  | made
  | lenOutOfRange
  | outOfMemory
  deriving DecidableEq, Repr

/-- What `make` depends on in the Go runtime: `maxAlloc`, the allocation limit of the platform
(`2 ^ 48` on linux/amd64), and `fits k`, whether the allocator finds room for `k` bytes when
`read` asks for them. -/
structure Runtime where
  maxAlloc : Nat
  fits : Nat → Bool

/-- `make([]byte, k)`, which is `runtime.makeslice` with elements of one byte: a `k` that is
negative or above `maxAlloc` panics; no memory is needed for `k = 0`; otherwise the bytes are
allocated, or the process ends with a fatal error when there is no room for them. -/
def makeBytes (rt : Runtime) (k : Int) : MakeOutcome :=
  if k < 0 ∨ (rt.maxAlloc : Int) < k then .lenOutOfRange
  else if k = 0 ∨ rt.fits k.toNat = true then .made
  else .outOfMemory

/-- How a call ends for its caller: it is `done`, with what it leaves behind, or the process
has ended with a `fatal` error of the runtime, which no deferred function intercepts. -/
inductive Outcome (α : Type) where
  | done (a : α)
  | fatal
  deriving DecidableEq, Repr

/-! ### `read` and `Receive` -/

/-- The value with which `make([]byte, k)` panics when `k` is out of range. -/
def makesliceFault : Fault := ⟨ascii "runtime error: makeslice: len out of range"⟩

/-- The call `read(src, &n)` made for a `*string`, with `n` a fresh `uint64`: the one argument
is not a `*string` and takes the default case, under the deferred function of this call (the
named result `err` of this call is nil while `binary.Read` runs). Returns `n`, the error, the
reader and the log. -/
def readUint64Call {σ : Type} (stk : Text) (R : Reader σ) (fuel : Nat) (s : σ) (log : Log) :
    Option (Nat × Option GoError × σ × Log) :=
  match binaryRead R fuel s (.uint64 0) with
  | none => none
  | some (.panicked f, s1) =>
    match recoverHandler stk (.panicked f none) log with
    | (err, log1) => some (0, err, s1, log1)
  | some (.ret (.uint64 n, err), s1) =>
    match recoverHandler stk (.returned err) log with
    | (err1, log1) => some (n, err1, s1, log1)
  | some (.ret (_, err), s1) =>
    match recoverHandler stk (.returned err) log with
    | (err1, log1) => some (0, err1, s1, log1)

/-- The body of `read`, the loop `for _, arg := range args` followed by `return nil`, without
the deferred function. `err` is the named result as it is before the next argument. Returns
how the body ends, the pointees of all arguments afterwards, the reader and the log; or that
the process ended in `bs := make([]byte, int(n))`, which comes before any byte of the body is
read. -/
def readBody {σ : Type} (rt : Runtime) (stk : Text) (R : Reader σ) (fuel : Nat) :
    List Value → σ → Log → Option GoError → Option (Outcome (Exit × List Value × σ × Log))
  | [], s, log, _ => some (.done (.returned none, [], s, log))
  | .string val :: rest, s, log, _ =>
    match readUint64Call stk R fuel s log with
    | none => none
    | some (n, err1, s1, log1) =>
      if err1 ≠ none then some (.done (.returned err1, .string val :: rest, s1, log1))
      else
        match makeBytes rt (intOfUint64 n) with
        | .lenOutOfRange =>
          some (.done (.panicked makesliceFault err1, .string val :: rest, s1, log1))
        | .outOfMemory => some .fatal
        | .made =>
          match ReadAtLeast R fuel s1 (intOfUint64 n).toNat (intOfUint64 n).toNat with
          | none => none
          | some (.panicked f, s2) =>
            some (.done (.panicked f err1, .string val :: rest, s2, log1))
          | some (.ret (bs, err2), s2) =>
            if err2 ≠ none then some (.done (.returned err2, .string val :: rest, s2, log1))
            else
              match readBody rt stk R fuel rest s2 log1 err2 with
              | none => none
              | some .fatal => some .fatal
              | some (.done (x, vs, s3, log3)) =>
                some (.done (x, .string (bufferOf (intOfUint64 n).toNat bs) :: vs, s3, log3))
  | val :: rest, s, log, err =>
    match binaryRead R fuel s val with
    | none => none
    | some (.panicked f, s1) => some (.done (.panicked f err, val :: rest, s1, log))
    | some (.ret (v1, err1), s1) =>
      if err1 ≠ none then some (.done (.returned err1, v1 :: rest, s1, log))
      else
        match readBody rt stk R fuel rest s1 log err1 with
        | none => none
        | some .fatal => some .fatal
        | some (.done (x, vs, s2, log2)) => some (.done (x, v1 :: vs, s2, log2))

/-- Source: `func read(src io.Reader, args ...interface{}) (err error)`: the body under the
deferred function. Returns the error, the pointees of the arguments, the reader and the log,
unless the process ended. -/
def read {σ : Type} (rt : Runtime) (stk : Text) (R : Reader σ) (fuel : Nat) (args : List Value)
    (s : σ) (log : Log) : Option (Outcome (Option GoError × List Value × σ × Log)) :=
  match readBody rt stk R fuel args s log none with
  | none => none
  | some .fatal => some .fatal
  | some (.done (x, vs, s1, log1)) =>
    match recoverHandler stk x log1 with
    | (err, log2) => some (.done (err, vs, s1, log2))

/-- The message held by the two pointees `&msg.Type, &msg.Body`. -/
def messageOf : List Value → Message
  | [.tag t, .string b] => ⟨t, b⟩
  | _ => ⟨0, []⟩

/-- Source: `func Receive(src io.Reader) (Message, error)`: `msg` starts as the zero value.
Returns the message, the error, the reader and the log, unless the process ended. -/
def Receive {σ : Type} (rt : Runtime) (stk : Text) (R : Reader σ) (fuel : Nat) (s : σ)
    (log : Log) : Option (Outcome (Message × Option GoError × σ × Log)) :=
  match read rt stk R fuel [.tag 0, .string []] s log with
  | none => none
  | some .fatal => some .fatal
  | some (.done (err, vs, s1, log1)) => some (.done (messageOf vs, err, s1, log1))

/-! ### A transport that holds bytes and then ends -/

/-- A transport holding `data`, after which it ends. It hands the bytes over in pieces: the
call number `i` of `Read` from now on gives at most `chunks[i] + 1` bytes (as many as fit when
`chunks` has run out), at least one; at the end every `Read` returns `0, io.EOF`. -/
structure Pipe where
  data : List Byte
  chunks : List Nat
  deriving DecidableEq, Repr

/-- The number of bytes the next `Read(p)` of a pipe hands over when `len(p) = k` and enough
bytes are held. -/
def Pipe.piece (chunks : List Nat) (k : Nat) : Nat :=
  match chunks with
  | [] => k
  | m :: _ => min k (m + 1)

/-- The `Read` method of a `Pipe`. -/
def Pipe.Read (p : Pipe) (k : Nat) : ReadOutcome × Pipe :=
  match p.data with
  | [] => (.ret [] (some .EOF), ⟨[], p.chunks.tail⟩)
  | b :: bs =>
    (.ret ((b :: bs).take (Pipe.piece p.chunks k)) none,
      ⟨(b :: bs).drop (Pipe.piece p.chunks k), p.chunks.tail⟩)

def pipeReader : Reader Pipe where
  Read := Pipe.Read

/-! ### Clients used to state the properties -/

/-- `strings.Join(lines, "\n")`. -/
def joinLines : List Text → Text
  | [] => []
  | [l] => l
  | l :: l2 :: ls => l ++ 10 :: joinLines (l2 :: ls)

/-- A writer whose second `Write` call takes three bytes and fails with a transport error; the
state counts the calls made. -/
def flakyWriter : Writer Nat where
  Write k p := if k = 1 then ((3, some (.transport 42)), k + 1) else ((p.length, none), k + 1)

/-- A caller that calls `Send` on each message in turn, on one writer: the errors returned and
the writer afterwards. -/
def sendAll {ω : Type} (W : Writer ω) : ω → List Message → List (Option GoError) × ω
  | w, [] => ([], w)
  | w, m :: ms =>
    match Send W w m with
    | (err, w1, _) =>
      match sendAll W w1 ms with
      | (errs, w2) => (err :: errs, w2)

/-- A caller that calls `Receive` a number of times in turn, on one reader: what each call
returned, the reader and the log afterwards, unless the process ended. -/
def receiveAll {σ : Type} (rt : Runtime) (stk : Text) (R : Reader σ) (fuel : Nat) :
    Nat → σ → Log → Option (Outcome (List (Message × Option GoError) × σ × Log))
  | 0, s, log => some (.done ([], s, log))
  | k + 1, s, log =>
    match Receive rt stk R fuel s log with
    | none => none
    | some .fatal => some .fatal
    | some (.done (m, err, s1, log1)) =>
      match receiveAll rt stk R fuel k s1 log1 with
      | none => none
      | some .fatal => some .fatal
      | some (.done (rs, s2, log2)) => some (.done ((m, err) :: rs, s2, log2))

/-- A runtime for the examples: the allocation limit of linux/amd64 and room for `2 ^ 32`
bytes. -/
def smallRuntime : Runtime where
  maxAlloc := 2 ^ 48
  fits k := decide (k ≤ 2 ^ 32)

/-- A body of `2 ^ 40` bytes `41`. -/
def bigBody : Text := List.replicate (2 ^ 40) 0x41

/-- A reader that follows a script: each `Read` call does what the next entry says, and after
the last entry every call returns `0, io.EOF`. -/
def scriptReader : Reader (List ReadOutcome) where
  Read s _ :=
    match s with
    | [] => (.ret [] (some .EOF), [])
    | o :: rest => (o, rest)

/-- A writer that breaks the contract of `io.Writer` in its first `Write` call, which takes no
byte and returns a nil error; the later calls take all bytes. The state counts the calls. -/
def lossyWriter : Writer Nat where
  Write k p := if k = 0 then ((0, none), k + 1) else ((p.length, none), k + 1)

/-- A reader that hands over one zero byte per `Read` call as long as its state, the number of
calls that are still to succeed, is not 0, and panics after that. -/
def faultAfter : Reader Nat where
  Read k _ := if k = 0 then (.fault ⟨ascii "boom"⟩, 0) else (.ret [0] none, k - 1)

/-! ### `Errorf` and `Logf` -/

/-- An operand of a formatting call that the fragment of `fmt.Sprintf` below knows: an `int`
or a `string`. -/
inductive Arg where
  | int (i : Int)
  | str (s : Text)
  deriving DecidableEq, Repr

/-- Source: `func Errorf(dst io.Writer, msg string, args ...interface{}) error`, which is
`return write(dst, Error, fmt.Sprintf(msg, args...))`. The function `fmt.Sprintf` of the
standard library is the parameter `sprintf`, over operands of any type `α`. -/
def Errorf {ω α : Type} (sprintf : Text → List α → Text) (W : Writer ω) (w : ω) (msg : Text)
    (args : List α) : Option GoError × ω × List WriteCall :=
  write W w [.tag MessageType.Error, .string (sprintf msg args)]

/-- Source: `func Logf(dst io.Writer, msg string, args ...interface{}) error`, which is
`return write(dst, Log, fmt.Sprintf(msg, args...))`. -/
def Logf {ω α : Type} (sprintf : Text → List α → Text) (W : Writer ω) (w : ω) (msg : Text)
    (args : List α) : Option GoError × ω × List WriteCall :=
  write W w [.tag MessageType.Log, .string (sprintf msg args)]

/-- A fragment of `fmt.Sprintf`: plain bytes are copied, `%%` gives `%`, `%d` formats an `int`
operand in base 10, `%s` copies a `string` operand, and every operand is used. `pct` tells
that the byte before was a `%` that starts a directive. Outside the fragment (any other
directive, an operand of another type, too few or too many operands) the result is `none`:
what `fmt.Sprintf` does there is not modelled. -/
def sprintfFrom (pct : Bool) : Text → List Arg → Option Text
  | [], args => if pct = false ∧ args = [] then some [] else none
  | b :: rest, args =>
    if pct = false then
      if b = 37 then sprintfFrom true rest args
      else (sprintfFrom false rest args).map (fun out => b :: out)
    else if b = 37 then (sprintfFrom false rest args).map (fun out => 37 :: out)
    else if b = 100 then
      match args with
      | .int i :: more => (sprintfFrom false rest more).map (fun out => ascii (toString i) ++ out)
      | _ => none
    else if b = 115 then
      match args with
      | .str s :: more => (sprintfFrom false rest more).map (fun out => s ++ out)
      | _ => none
    else none

/-- A formatter that is `fmt.Sprintf` on the fragment above; outside of it, where it is no
model of `fmt.Sprintf`, it gives the empty string. -/
def sprintfFragment (format : Text) (args : List Arg) : Text :=
  (sprintfFrom false format args).getD []

/-! ## Lemmas -/

/-! ### Big-endian integers -/

theorem be64_length (n : Nat) : (be64 n).length = 8 := rfl

theorem beUint64_be64 (n : Nat) : beUint64 (be64 n) = n % 2 ^ 64 := by
  simp only [be64, beUint64, List.foldl, Fin.ofNat, Fin.val_mk]
  omega

theorem beUint64_lt (bs : List Byte) (h : bs.length = 8) : beUint64 bs < 2 ^ 64 := by
  match bs, h with
  | [b0, b1, b2, b3, b4, b5, b6, b7], _ =>
    simp only [beUint64, List.foldl]
    omega

theorem intOfUint64_nonneg (n : Nat) (h : n < 2 ^ 63) : intOfUint64 n = (n : Int) := by
  have h1 : n % 2 ^ 64 = n := Nat.mod_eq_of_lt (by omega)
  simp only [intOfUint64, h1, h, if_true]

theorem intOfUint64_not_neg (n : Nat) (h : n < 2 ^ 63) : ¬ intOfUint64 n < 0 := by
  rw [intOfUint64_nonneg n h]; omega

theorem intOfUint64_toNat (n : Nat) (h : n < 2 ^ 63) : (intOfUint64 n).toNat = n := by
  rw [intOfUint64_nonneg n h]; simp

theorem intOfUint64_neg (n : Nat) (h1 : 2 ^ 63 ≤ n) (h2 : n < 2 ^ 64) : intOfUint64 n < 0 := by
  have h3 : n % 2 ^ 64 = n := Nat.mod_eq_of_lt h2
  have h4 : ¬ n < 2 ^ 63 := by omega
  simp only [intOfUint64, h3, h4, if_false]
  omega

/-! ### `strings.Split` -/

theorem splitLines_ne_nil (s : Text) : splitLines s ≠ [] := by
  cases s with
  | nil => simp [splitLines]
  | cons b bs =>
    simp only [splitLines]
    split
    · simp
    · split <;> simp

theorem joinLines_splitLines (s : Text) : joinLines (splitLines s) = s := by
  induction s with
  | nil => rfl
  | cons b bs ih =>
    simp only [splitLines]
    split
    · rename_i hb
      have hne := splitLines_ne_nil bs
      cases hs : splitLines bs with
      | nil => exact absurd hs hne
      | cons l ls => rw [hs] at ih; simp [joinLines, ih, hb]
    · cases hs : splitLines bs with
      | nil => exact absurd hs (splitLines_ne_nil bs)
      | cons l ls =>
        rw [hs] at ih
        cases ls with
        | nil => simpa [joinLines] using ih
        | cons l2 ls2 => simp only [joinLines] at ih ⊢; simp [ih]

theorem splitLines_no_newline (s : Text) : ∀ l ∈ splitLines s, (10 : Byte) ∉ l := by
  induction s with
  | nil => simp [splitLines]
  | cons b bs ih =>
    simp only [splitLines]
    split
    · intro l hl
      simp only [List.mem_cons] at hl
      rcases hl with rfl | hl
      · simp
      · exact ih l hl
    · rename_i hb
      cases hs : splitLines bs with
      | nil => exact absurd hs (splitLines_ne_nil bs)
      | cons l ls =>
        rw [hs] at ih
        intro l1 hl1
        simp only [List.mem_cons] at hl1
        rcases hl1 with rfl | hl1
        · have := ih l (by simp)
          simp only [List.mem_cons, not_or]
          exact ⟨fun h => hb h.symm, this⟩
        · exact ih l1 (by simp [hl1])

/-! ### `io.ReadAtLeast` on a pipe -/

theorem loop_done {σ : Type} (R : Reader σ) (bufLen min fuel : Nat) (s : σ) (buf : List Byte)
    (err : Option GoError) (h : ¬ (buf.length < min ∧ err = none)) :
    readAtLeastLoop R bufLen min fuel s buf err = some (.ret (buf, readAtLeastErr min buf err), s) := by
  cases fuel <;> simp only [readAtLeastLoop, h, if_false]

theorem Pipe.piece_le (chunks : List Nat) (k : Nat) : Pipe.piece chunks k ≤ k := by
  cases chunks <;> simp [Pipe.piece]

theorem Pipe.piece_pos (chunks : List Nat) (k : Nat) (h : 0 < k) : 0 < Pipe.piece chunks k := by
  cases chunks <;> simp [Pipe.piece, h]

theorem loop_pipe_enough (k : Nat) : ∀ (fuel : Nat) (buf data : List Byte) (chunks : List Nat),
    buf.length ≤ k → k - buf.length ≤ data.length → k - buf.length ≤ fuel →
    ∃ chunks1, readAtLeastLoop pipeReader k k fuel ⟨data, chunks⟩ buf none =
      some (.ret (buf ++ data.take (k - buf.length), none),
        ⟨data.drop (k - buf.length), chunks1⟩) := by
  intro fuel
  induction fuel with
  | zero =>
    intro buf data chunks h1 _ h3
    have hk : k - buf.length = 0 := by omega
    refine ⟨chunks, ?_⟩
    rw [loop_done _ _ _ _ _ _ _ (by omega)]
    simp [hk, readAtLeastErr]
  | succ f ih =>
    intro buf data chunks h1 h2 h3
    by_cases hk : buf.length < k
    · cases data with
      | nil => simp at h2; omega
      | cons b bs =>
        have hp := Pipe.piece_le chunks (k - buf.length)
        have hq := Pipe.piece_pos chunks (k - buf.length) (by omega)
        obtain ⟨c1, hc1⟩ := ih (buf ++ (b :: bs).take (Pipe.piece chunks (k - buf.length)))
          ((b :: bs).drop (Pipe.piece chunks (k - buf.length))) chunks.tail
          (by simp only [List.length_append, List.length_take]; omega)
          (by simp only [List.length_append, List.length_take, List.length_drop]; omega)
          (by simp only [List.length_append, List.length_take]; omega)
        refine ⟨c1, ?_⟩
        simp only [readAtLeastLoop, hk, true_and, if_true, pipeReader, Pipe.Read]
        rw [List.take_take, Nat.min_eq_right hp]
        simp only [pipeReader] at hc1
        rw [hc1]
        have e1 : (buf ++ List.take (Pipe.piece chunks (k - buf.length)) (b :: bs)).length
            = buf.length + Pipe.piece chunks (k - buf.length) := by
          simp only [List.length_append, List.length_take]; omega
        rw [e1]
        have e2 : k - (buf.length + Pipe.piece chunks (k - buf.length))
            = (k - buf.length) - Pipe.piece chunks (k - buf.length) := by omega
        rw [e2]
        have e3 : k - buf.length = Pipe.piece chunks (k - buf.length)
            + (k - buf.length - Pipe.piece chunks (k - buf.length)) := by omega
        generalize Pipe.piece chunks (k - buf.length) = p at *
        generalize k - buf.length = n at *
        obtain ⟨q, rfl⟩ : ∃ q, n = p + q := ⟨n - p, e3⟩
        simp [List.take_add, List.drop_drop, Nat.add_comm]
    · have hk : k - buf.length = 0 := by omega
      refine ⟨chunks, ?_⟩
      rw [loop_done _ _ _ _ _ _ _ (by omega)]
      simp [hk, readAtLeastErr]

theorem loop_pipe_short (k : Nat) : ∀ (fuel : Nat) (buf data : List Byte) (chunks : List Nat),
    data.length < k - buf.length → data.length < fuel →
    ∃ chunks1, readAtLeastLoop pipeReader k k fuel ⟨data, chunks⟩ buf none =
      some (.ret (buf ++ data,
        some (if buf ++ data = [] then .EOF else .ErrUnexpectedEOF)), ⟨[], chunks1⟩) := by
  intro fuel
  induction fuel with
  | zero => intro buf data chunks _ h2; omega
  | succ f ih =>
    intro buf data chunks h1 h2
    have hk : buf.length < k := by omega
    cases data with
    | nil =>
      refine ⟨chunks.tail, ?_⟩
      simp only [readAtLeastLoop, hk, true_and, if_true, pipeReader, Pipe.Read]
      rw [loop_done _ _ _ _ _ _ _ (by simp)]
      have hk2 : ¬ (buf.length ≥ k) := by omega
      cases buf <;> simp_all [readAtLeastErr]
    | cons b bs =>
      have hp := Pipe.piece_le chunks (k - buf.length)
      have hq := Pipe.piece_pos chunks (k - buf.length) (by omega)
      obtain ⟨c1, hc1⟩ := ih (buf ++ (b :: bs).take (Pipe.piece chunks (k - buf.length)))
        ((b :: bs).drop (Pipe.piece chunks (k - buf.length))) chunks.tail
        (by simp only [List.length_append, List.length_take, List.length_drop, List.length_cons] at *; omega)
        (by simp only [List.length_append, List.length_take, List.length_drop, List.length_cons] at *; omega)
      refine ⟨c1, ?_⟩
      simp only [readAtLeastLoop, hk, true_and, if_true, pipeReader, Pipe.Read]
      rw [List.take_take, Nat.min_eq_right hp]
      simp only [pipeReader] at hc1
      rw [hc1]
      simp [List.append_assoc, List.take_append_drop]

theorem ReadFull_pipe_enough (k fuel : Nat) (data : List Byte) (chunks : List Nat)
    (h1 : k ≤ data.length) (h2 : k ≤ fuel) :
    ∃ chunks1, ReadFull pipeReader fuel ⟨data, chunks⟩ k =
      some (.ret (data.take k, none), ⟨data.drop k, chunks1⟩) := by
  obtain ⟨c1, hc1⟩ := loop_pipe_enough k fuel [] data chunks (by simp) (by simpa using h1)
    (by simpa using h2)
  exact ⟨c1, by simpa [ReadFull, ReadAtLeast] using hc1⟩

theorem ReadFull_pipe_short (k fuel : Nat) (data : List Byte) (chunks : List Nat)
    (h1 : data.length < k) (h2 : data.length < fuel) :
    ∃ chunks1, ReadFull pipeReader fuel ⟨data, chunks⟩ k =
      some (.ret (data, some (if data = [] then .EOF else .ErrUnexpectedEOF)), ⟨[], chunks1⟩) := by
  obtain ⟨c1, hc1⟩ := loop_pipe_short k fuel [] data chunks (by simpa using h1) h2
  exact ⟨c1, by simpa [ReadFull, ReadAtLeast] using hc1⟩

/-! ### `Receive` on a pipe, case by case -/

theorem bufferOf_full (k : Nat) (bs : List Byte) (h : k ≤ bs.length) : bufferOf k bs = bs := by
  simp [bufferOf, Nat.sub_eq_zero_of_le h]

theorem binaryRead_tag_pipe_cons (fuel : Nat) (t v : Byte) (rest : List Byte) (chunks : List Nat)
    (hf : 1 ≤ fuel) :
    ∃ chunks1, binaryRead pipeReader fuel ⟨t :: rest, chunks⟩ (.tag v) =
      some (.ret (.tag t, none), ⟨rest, chunks1⟩) := by
  obtain ⟨c1, hc1⟩ := ReadFull_pipe_enough 1 fuel (t :: rest) chunks (by simp) hf
  exact ⟨c1, by simp [binaryRead, hc1, bufferOf]⟩

theorem binaryRead_tag_pipe_nil (fuel : Nat) (v : Byte) (chunks : List Nat) (hf : 1 ≤ fuel) :
    ∃ chunks1, binaryRead pipeReader fuel ⟨[], chunks⟩ (.tag v) =
      some (.ret (.tag v, some .EOF), ⟨[], chunks1⟩) := by
  obtain ⟨c1, hc1⟩ := ReadFull_pipe_short 1 fuel [] chunks (by simp) (by simpa using hf)
  exact ⟨c1, by simp [binaryRead, hc1]⟩

theorem readUint64Call_pipe_enough (stk : Text) (fuel : Nat) (data : List Byte)
    (chunks : List Nat) (log : Log) (h1 : 8 ≤ data.length) (hf : 8 ≤ fuel) :
    ∃ chunks1, readUint64Call stk pipeReader fuel ⟨data, chunks⟩ log =
      some (beUint64 (data.take 8), none, ⟨data.drop 8, chunks1⟩, log) := by
  obtain ⟨c1, hc1⟩ := ReadFull_pipe_enough 8 fuel data chunks h1 hf
  refine ⟨c1, ?_⟩
  have hb : bufferOf 8 (data.take 8) = data.take 8 :=
    bufferOf_full 8 _ (by simp only [List.length_take]; omega)
  simp [readUint64Call, binaryRead, hc1, hb, recoverHandler]

theorem readUint64Call_pipe_short (stk : Text) (fuel : Nat) (data : List Byte)
    (chunks : List Nat) (log : Log) (h1 : data.length < 8) (hf : data.length < fuel) :
    ∃ chunks1, readUint64Call stk pipeReader fuel ⟨data, chunks⟩ log =
      some (0, some (if data = [] then .EOF else .ErrUnexpectedEOF), ⟨[], chunks1⟩, log) := by
  obtain ⟨c1, hc1⟩ := ReadFull_pipe_short 8 fuel data chunks h1 hf
  refine ⟨c1, ?_⟩
  simp [readUint64Call, binaryRead, hc1, recoverHandler]

theorem makeBytes_negative (rt : Runtime) (k : Int) (h : k < 0) :
    makeBytes rt k = .lenOutOfRange := by
  simp [makeBytes, h]

theorem makeBytes_made_nat (rt : Runtime) (n : Nat) (hn : n < 2 ^ 64)
    (h : makeBytes rt (intOfUint64 n) = .made) :
    n < 2 ^ 63 ∧ (intOfUint64 n).toNat = n ∧ makeBytes rt (n : Int) = .made := by
  by_cases h63 : n < 2 ^ 63
  · have e := intOfUint64_nonneg n h63
    exact ⟨h63, intOfUint64_toNat n h63, by rw [← e]; exact h⟩
  · have hneg := intOfUint64_neg n (by omega) hn
    rw [makeBytes_negative rt _ hneg] at h
    cases h

theorem makeBytes_of_nat (rt : Runtime) (n : Nat) (hn : n < 2 ^ 63)
    (h : makeBytes rt (n : Int) = .made) : makeBytes rt (intOfUint64 n) = .made := by
  rw [intOfUint64_nonneg n hn]; exact h

theorem Receive_pipe_empty (rt : Runtime) (stk : Text) (fuel : Nat) (chunks : List Nat)
    (log : Log) (hf : 1 ≤ fuel) :
    ∃ chunks1, Receive rt stk pipeReader fuel ⟨[], chunks⟩ log =
      some (.done (⟨0, []⟩, some .EOF, ⟨[], chunks1⟩, log)) := by
  obtain ⟨c1, hc1⟩ := binaryRead_tag_pipe_nil fuel 0 chunks hf
  exact ⟨c1, by simp [Receive, read, readBody, hc1, recoverHandler, messageOf]⟩

theorem Receive_pipe_short_length (rt : Runtime) (stk : Text) (fuel : Nat) (t : Byte)
    (rest : List Byte) (chunks : List Nat) (log : Log) (h1 : rest.length < 8)
    (hf : rest.length < fuel) :
    ∃ chunks1, Receive rt stk pipeReader fuel ⟨t :: rest, chunks⟩ log =
      some (.done (⟨t, []⟩, some (if rest = [] then .EOF else .ErrUnexpectedEOF),
        ⟨[], chunks1⟩, log)) := by
  obtain ⟨c1, hc1⟩ := binaryRead_tag_pipe_cons fuel t 0 rest chunks (by omega)
  obtain ⟨c2, hc2⟩ := readUint64Call_pipe_short stk fuel rest c1 log h1 hf
  refine ⟨c2, ?_⟩
  simp [Receive, read, readBody, hc1, hc2, recoverHandler, messageOf]

theorem Receive_pipe_header (stk : Text) (fuel : Nat) (t : Byte)
    (hdr rest : List Byte) (chunks : List Nat) (log : Log) (h8 : hdr.length = 8)
    (hf : 8 ≤ fuel) :
    ∃ chunks1 chunks2,
      binaryRead pipeReader fuel ⟨t :: (hdr ++ rest), chunks⟩ (.tag 0) =
        some (.ret (.tag t, none), ⟨hdr ++ rest, chunks1⟩) ∧
      readUint64Call stk pipeReader fuel ⟨hdr ++ rest, chunks1⟩ log =
        some (beUint64 hdr, none, ⟨rest, chunks2⟩, log) := by
  obtain ⟨c1, hc1⟩ := binaryRead_tag_pipe_cons fuel t 0 (hdr ++ rest) chunks (by omega)
  obtain ⟨c2, hc2⟩ := readUint64Call_pipe_enough stk fuel (hdr ++ rest) c1 log
    (by simp [h8]) hf
  have e1 : (hdr ++ rest).take 8 = hdr := by rw [← h8]; simp
  have e2 : (hdr ++ rest).drop 8 = rest := by rw [← h8]; simp
  rw [e1, e2] at hc2
  exact ⟨c1, c2, hc1, hc2⟩

theorem Receive_pipe_out_of_range (rt : Runtime) (stk : Text) (fuel : Nat) (t : Byte)
    (hdr rest : List Byte) (chunks : List Nat) (log : Log) (h8 : hdr.length = 8)
    (hm : makeBytes rt (intOfUint64 (beUint64 hdr)) = .lenOutOfRange) (hf : 8 ≤ fuel) :
    ∃ chunks1, Receive rt stk pipeReader fuel ⟨t :: (hdr ++ rest), chunks⟩ log =
      some (.done (⟨t, []⟩, some (.recovered (panicMessage stk makesliceFault)),
        ⟨rest, chunks1⟩, log)) := by
  obtain ⟨c1, c2, hc1, hc2⟩ := Receive_pipe_header stk fuel t hdr rest chunks log h8 hf
  refine ⟨c2, ?_⟩
  simp [Receive, read, readBody, hc1, hc2, recoverHandler, messageOf, hm]

theorem Receive_pipe_negative (rt : Runtime) (stk : Text) (fuel : Nat) (t : Byte)
    (hdr rest : List Byte) (chunks : List Nat) (log : Log) (h8 : hdr.length = 8)
    (hN : 2 ^ 63 ≤ beUint64 hdr) (hf : 8 ≤ fuel) :
    ∃ chunks1, Receive rt stk pipeReader fuel ⟨t :: (hdr ++ rest), chunks⟩ log =
      some (.done (⟨t, []⟩, some (.recovered (panicMessage stk makesliceFault)),
        ⟨rest, chunks1⟩, log)) :=
  Receive_pipe_out_of_range rt stk fuel t hdr rest chunks log h8
    (makeBytes_negative rt _ (intOfUint64_neg _ hN (beUint64_lt hdr h8))) hf

theorem Receive_pipe_fatal (rt : Runtime) (stk : Text) (fuel : Nat) (t : Byte)
    (hdr rest : List Byte) (chunks : List Nat) (log : Log) (h8 : hdr.length = 8)
    (hm : makeBytes rt (intOfUint64 (beUint64 hdr)) = .outOfMemory) (hf : 8 ≤ fuel) :
    Receive rt stk pipeReader fuel ⟨t :: (hdr ++ rest), chunks⟩ log = some .fatal := by
  obtain ⟨c1, c2, hc1, hc2⟩ := Receive_pipe_header stk fuel t hdr rest chunks log h8 hf
  simp [Receive, read, readBody, hc1, hc2, hm]

theorem Receive_pipe_ok (rt : Runtime) (stk : Text) (fuel : Nat) (t : Byte)
    (hdr rest : List Byte) (chunks : List Nat) (log : Log) (h8 : hdr.length = 8)
    (hm : makeBytes rt (intOfUint64 (beUint64 hdr)) = .made)
    (hr : beUint64 hdr ≤ rest.length) (hf : 8 ≤ fuel) (hf2 : beUint64 hdr ≤ fuel) :
    ∃ chunks1, Receive rt stk pipeReader fuel ⟨t :: (hdr ++ rest), chunks⟩ log =
      some (.done (⟨t, rest.take (beUint64 hdr)⟩, none,
        ⟨rest.drop (beUint64 hdr), chunks1⟩, log)) := by
  obtain ⟨c1, c2, hc1, hc2⟩ := Receive_pipe_header stk fuel t hdr rest chunks log h8 hf
  obtain ⟨c3, hc3⟩ := ReadFull_pipe_enough (beUint64 hdr) fuel rest c2 hr hf2
  refine ⟨c3, ?_⟩
  obtain ⟨_, hnt, _⟩ := makeBytes_made_nat rt _ (beUint64_lt hdr h8) hm
  have hb : bufferOf (beUint64 hdr) (rest.take (beUint64 hdr)) = rest.take (beUint64 hdr) :=
    bufferOf_full _ _ (by simp only [List.length_take]; omega)
  simp only [ReadFull] at hc3
  simp [Receive, read, readBody, hc1, hc2, hc3, recoverHandler, messageOf, hm, hnt, hb]

theorem Receive_pipe_short_body (rt : Runtime) (stk : Text) (fuel : Nat) (t : Byte)
    (hdr rest : List Byte) (chunks : List Nat) (log : Log) (h8 : hdr.length = 8)
    (hm : makeBytes rt (intOfUint64 (beUint64 hdr)) = .made)
    (hr : rest.length < beUint64 hdr) (hf : 8 ≤ fuel) (hf2 : rest.length < fuel) :
    ∃ chunks1, Receive rt stk pipeReader fuel ⟨t :: (hdr ++ rest), chunks⟩ log =
      some (.done (⟨t, []⟩, some (if rest = [] then .EOF else .ErrUnexpectedEOF),
        ⟨[], chunks1⟩, log)) := by
  obtain ⟨c1, c2, hc1, hc2⟩ := Receive_pipe_header stk fuel t hdr rest chunks log h8 hf
  obtain ⟨c3, hc3⟩ := ReadFull_pipe_short (beUint64 hdr) fuel rest c2 hr hf2
  refine ⟨c3, ?_⟩
  obtain ⟨_, hnt, _⟩ := makeBytes_made_nat rt _ (beUint64_lt hdr h8) hm
  simp only [ReadFull] at hc3
  simp [Receive, read, readBody, hc1, hc2, hc3, recoverHandler, messageOf, hm, hnt]

/-! ### The nested calls -/

theorem write_uint64 {ω : Type} (W : Writer ω) (w : ω) (n : Nat) :
    write W w [.uint64 n] = writeUint64Call W w n := by
  simp only [write, writeUint64Call]
  rcases binaryWrite W w (.uint64 n) with ⟨e, w1, t1⟩
  cases e <;> simp

theorem binaryRead_uint64_kind {σ : Type} (R : Reader σ) (fuel : Nat) (s s1 : σ) (v : Value)
    (err : Option GoError) (h : binaryRead R fuel s (.uint64 0) = some (.ret (v, err), s1)) :
    ∃ n, v = .uint64 n := by
  simp only [binaryRead] at h
  split at h <;> simp at h
  · exact ⟨0, h.1.1.symm⟩
  · exact ⟨_, h.1.1.symm⟩

theorem read_uint64 {σ : Type} (rt : Runtime) (stk : Text) (R : Reader σ) (fuel : Nat) (s : σ)
    (log : Log) :
    read rt stk R fuel [.uint64 0] s log =
      (readUint64Call stk R fuel s log).map
        (fun r => .done (r.2.1, [Value.uint64 r.1], r.2.2.1, r.2.2.2)) := by
  simp only [read, readBody, readUint64Call]
  rcases h : binaryRead R fuel s (.uint64 0) with _ | ⟨c, s1⟩
  · rfl
  · cases c with
    | panicked f => simp [recoverHandler]
    | ret a =>
      obtain ⟨v, err⟩ := a
      obtain ⟨n, rfl⟩ := binaryRead_uint64_kind R fuel s s1 v err h
      cases err with
      | none => simp [recoverHandler]
      | some e =>
        have hn : n = 0 := by
          simp only [binaryRead] at h
          split at h <;> simp at h
          exact h.1.1.symm
        simp [recoverHandler, hn]

/-! ### Frames -/

theorem frame_length (m : Message) : (frame m).length = 1 + 8 + m.Body.length := by
  simp [frame, be64_length]; omega

theorem Send_presented {ω : Type} (W : Writer ω) (w : ω) (m : Message)
    (hW : ∀ w p, (W.Write w p).1.2 = none) :
    (Send W w m).1 = none ∧ presented (Send W w m).2.2 = frame m := by
  rcases h1 : W.Write w [m.Typ] with ⟨⟨n1, e1⟩, w1⟩
  have := hW w [m.Typ]; rw [h1] at this; simp only at this; subst this
  rcases h2 : W.Write w1 (be64 m.Body.length) with ⟨⟨n2, e2⟩, w2⟩
  have := hW w1 (be64 m.Body.length); rw [h2] at this; simp only at this; subst this
  rcases h3 : W.Write w2 m.Body with ⟨⟨n3, e3⟩, w3⟩
  have := hW w2 m.Body; rw [h3] at this; simp only at this; subst this
  simp [Send, write, writeUint64Call, binaryWrite, encodeFixed, h1, h2, h3, presented, frame]

theorem Send_bufWriter (w : List Byte) (m : Message) :
    Send bufWriter w m = (none, w ++ frame m,
      [⟨[m.Typ], 1, none⟩, ⟨be64 m.Body.length, 8, none⟩, ⟨m.Body, m.Body.length, none⟩]) := by
  simp [Send, write, writeUint64Call, binaryWrite, encodeFixed, bufWriter, frame, be64_length]

theorem Receive_frame (rt : Runtime) (stk : Text) (fuel : Nat) (m : Message)
    (rest : List Byte) (chunks : List Nat) (log : Log) (hL : m.Body.length < 2 ^ 63)
    (hm : makeBytes rt (m.Body.length : Int) = .made) (hf : 8 ≤ fuel)
    (hf2 : m.Body.length ≤ fuel) :
    ∃ chunks1, Receive rt stk pipeReader fuel ⟨frame m ++ rest, chunks⟩ log =
      some (.done (m, none, ⟨rest, chunks1⟩, log)) := by
  have hN : beUint64 (be64 m.Body.length) = m.Body.length := by
    rw [beUint64_be64]; exact Nat.mod_eq_of_lt (by omega)
  obtain ⟨c1, hc1⟩ := Receive_pipe_ok rt stk fuel m.Typ (be64 m.Body.length) (m.Body ++ rest)
    chunks log (be64_length _) (by rw [hN]; exact makeBytes_of_nat rt _ hL hm) (by simp [hN])
    hf (by omega)
  refine ⟨c1, ?_⟩
  simp only [hN, List.take_left, List.drop_left] at hc1
  simpa [frame] using hc1

/-! ### `read` on any reader -/

theorem readUint64Call_log {σ : Type} (stk : Text) (R : Reader σ) (fuel : Nat) (s s1 : σ)
    (log log1 : Log) (n : Nat) (e : Option GoError)
    (h : readUint64Call stk R fuel s log = some (n, e, s1, log1)) : log1 = log := by
  simp only [readUint64Call] at h
  split at h
  · simp at h
  · simp only [recoverHandler, Option.some.injEq, Prod.mk.injEq] at h
    exact h.2.2.2.symm
  · simp only [recoverHandler, Option.some.injEq, Prod.mk.injEq] at h
    exact h.2.2.2.symm
  · simp only [recoverHandler, Option.some.injEq, Prod.mk.injEq] at h
    exact h.2.2.2.symm

theorem readBody_default {σ : Type} (rt : Runtime) (stk : Text) (R : Reader σ) (fuel : Nat)
    (v : Value) (rest : List Value) (s : σ) (log : Log) (err : Option GoError)
    (hv : ∀ b, v ≠ .string b) :
    readBody rt stk R fuel (v :: rest) s log err =
      match binaryRead R fuel s v with
      | none => none
      | some (.panicked f, s1) => some (.done (.panicked f err, v :: rest, s1, log))
      | some (.ret (v1, err1), s1) =>
        if err1 ≠ none then some (.done (.returned err1, v1 :: rest, s1, log))
        else
          match readBody rt stk R fuel rest s1 log err1 with
          | none => none
          | some .fatal => some .fatal
          | some (.done (x, vs, s2, log2)) => some (.done (x, v1 :: vs, s2, log2)) := by
  cases v with
  | string b => exact absurd rfl (hv b)
  | tag t => simp only [readBody]
  | uint64 n => simp only [readBody]

theorem readBody_string {σ : Type} (rt : Runtime) (stk : Text) (R : Reader σ) (fuel : Nat)
    (val : Text) (rest : List Value) (s s1 : σ) (log log1 : Log) (err0 : Option GoError)
    (n : Nat) (hc : readUint64Call stk R fuel s log = some (n, none, s1, log1)) :
    readBody rt stk R fuel (.string val :: rest) s log err0 =
      match makeBytes rt (intOfUint64 n) with
      | .lenOutOfRange =>
        some (.done (.panicked makesliceFault none, .string val :: rest, s1, log1))
      | .outOfMemory => some .fatal
      | .made =>
        match ReadAtLeast R fuel s1 (intOfUint64 n).toNat (intOfUint64 n).toNat with
        | none => none
        | some (.panicked f, s2) =>
          some (.done (.panicked f none, .string val :: rest, s2, log1))
        | some (.ret (bs, err2), s2) =>
          if err2 ≠ none then some (.done (.returned err2, .string val :: rest, s2, log1))
          else
            match readBody rt stk R fuel rest s2 log1 err2 with
            | none => none
            | some .fatal => some .fatal
            | some (.done (x, vs, s3, log3)) =>
              some (.done (x, .string (bufferOf (intOfUint64 n).toNat bs) :: vs, s3, log3)) := by
  simp only [readBody, hc, ne_eq, not_true_eq_false, if_false]

theorem readBody_invariant {σ : Type} (rt : Runtime) (stk : Text) (R : Reader σ) (fuel : Nat) :
    ∀ (args : List Value) (s : σ) (log : Log) (x : Exit) (vs : List Value) (s1 : σ)
      (log1 : Log), readBody rt stk R fuel args s log none = some (.done (x, vs, s1, log1)) →
      log1 = log ∧ ∀ f p, x = .panicked f p → p = none := by
  intro args
  induction args with
  | nil =>
    intro s log x vs s1 log1 h
    simp only [readBody, Option.some.injEq, Outcome.done.injEq, Prod.mk.injEq] at h
    exact ⟨h.2.2.2.symm, fun f p hx => by rw [← h.1] at hx; cases hx⟩
  | cons v rest ih =>
    intro s log x vs s1 log1 h
    by_cases hv : ∃ b, v = .string b
    · obtain ⟨b, rfl⟩ := hv
      rcases hc : readUint64Call stk R fuel s log with _ | ⟨n, err1, s2, log2⟩
      · simp [readBody, hc] at h
      · have hlog := readUint64Call_log stk R fuel s s2 log log2 n err1 hc
        subst hlog
        cases err1 with
        | some e1 =>
          simp only [readBody, hc, ne_eq, reduceCtorEq, not_false_eq_true, if_true,
            Option.some.injEq, Outcome.done.injEq, Prod.mk.injEq] at h
          exact ⟨h.2.2.2.symm, fun f p hx => by rw [← h.1] at hx; cases hx⟩
        | none =>
          rw [readBody_string rt stk R fuel b rest s s2 log2 log2 none n hc] at h
          split at h
          · simp only [Option.some.injEq, Outcome.done.injEq, Prod.mk.injEq] at h
            refine ⟨h.2.2.2.symm, fun f p hx => ?_⟩
            rw [← h.1] at hx
            cases hx
            rfl
          · simp at h
          · split at h
            · simp at h
            · simp only [Option.some.injEq, Outcome.done.injEq, Prod.mk.injEq] at h
              refine ⟨h.2.2.2.symm, fun f p hx => ?_⟩
              rw [← h.1] at hx
              cases hx
              rfl
            · rename_i bs err2 s3 _
              cases err2 with
              | some e2 =>
                simp only [ne_eq, reduceCtorEq, not_false_eq_true, if_true, Option.some.injEq,
                  Outcome.done.injEq, Prod.mk.injEq] at h
                exact ⟨h.2.2.2.symm, fun f p hx => by rw [← h.1] at hx; cases hx⟩
              | none =>
                simp only [ne_eq, not_true_eq_false, if_false] at h
                rcases hb : readBody rt stk R fuel rest s3 log2 none with _ | o
                · simp [hb] at h
                · cases o with
                  | fatal => simp [hb] at h
                  | done a =>
                    obtain ⟨x2, vs2, s4, log4⟩ := a
                    simp only [hb, Option.some.injEq, Outcome.done.injEq, Prod.mk.injEq] at h
                    obtain ⟨h1, h2⟩ := ih s3 log2 x2 vs2 s4 log4 hb
                    refine ⟨by rw [← h.2.2.2, h1], fun f p hx => ?_⟩
                    rw [← h.1] at hx
                    exact h2 f p hx
    · have hv2 : ∀ b, v ≠ .string b := fun b hb => hv ⟨b, hb⟩
      rw [readBody_default rt stk R fuel v rest s log none hv2] at h
      split at h
      · simp at h
      · simp only [Option.some.injEq, Outcome.done.injEq, Prod.mk.injEq] at h
        refine ⟨h.2.2.2.symm, fun f p hx => ?_⟩
        rw [← h.1] at hx
        cases hx
        rfl
      · rename_i v1 err1 s2 _
        cases err1 with
        | some e1 =>
          simp only [ne_eq, reduceCtorEq, not_false_eq_true, if_true, Option.some.injEq,
            Outcome.done.injEq, Prod.mk.injEq] at h
          exact ⟨h.2.2.2.symm, fun f p hx => by rw [← h.1] at hx; cases hx⟩
        | none =>
          simp only [ne_eq, not_true_eq_false, if_false] at h
          rcases hb : readBody rt stk R fuel rest s2 log none with _ | o
          · simp [hb] at h
          · cases o with
            | fatal => simp [hb] at h
            | done a =>
              obtain ⟨x2, vs2, s4, log4⟩ := a
              simp only [hb, Option.some.injEq, Outcome.done.injEq, Prod.mk.injEq] at h
              obtain ⟨h1, h2⟩ := ih s2 log x2 vs2 s4 log4 hb
              refine ⟨by rw [← h.2.2.2, h1], fun f p hx => ?_⟩
              rw [← h.1] at hx
              exact h2 f p hx

theorem read_log {σ : Type} (rt : Runtime) (stk : Text) (R : Reader σ) (fuel : Nat)
    (args : List Value) (s s1 : σ) (log log1 : Log) (err : Option GoError) (vs : List Value)
    (h : read rt stk R fuel args s log = some (.done (err, vs, s1, log1))) : log1 = log := by
  simp only [read] at h
  rcases hb : readBody rt stk R fuel args s log none with _ | o
  · simp [hb] at h
  · cases o with
    | fatal => simp [hb] at h
    | done a =>
      obtain ⟨x, vs2, s2, log2⟩ := a
      obtain ⟨hlog, hp⟩ := readBody_invariant rt stk R fuel args s log x vs2 s2 log2 hb
      subst hlog
      simp only [hb] at h
      cases x with
      | returned e =>
        simp only [recoverHandler, Option.some.injEq, Outcome.done.injEq, Prod.mk.injEq] at h
        exact h.2.2.2.symm
      | panicked f p =>
        have := hp f p rfl
        subst this
        simp only [recoverHandler, Option.some.injEq, Outcome.done.injEq, Prod.mk.injEq] at h
        exact h.2.2.2.symm

theorem binaryRead_tag_value {σ : Type} (R : Reader σ) (fuel : Nat) (s s1 : σ) (v : Byte)
    (v1 : Value) (err : Option GoError)
    (h : binaryRead R fuel s (.tag v) = some (.ret (v1, err), s1)) :
    (err ≠ none ∧ v1 = .tag v) ∨ (err = none ∧ ∃ t, v1 = .tag t) := by
  simp only [binaryRead] at h
  split at h <;> simp at h
  · exact Or.inl ⟨by rw [← h.1.2]; simp, h.1.1.symm⟩
  · exact Or.inr ⟨h.1.2.symm, _, h.1.1.symm⟩

theorem readBody_string_single {σ : Type} (rt : Runtime) (stk : Text) (R : Reader σ)
    (fuel : Nat) (val : Text) (s s1 : σ) (log log1 : Log) (err0 : Option GoError) (x : Exit)
    (vs : List Value)
    (h : readBody rt stk R fuel [.string val] s log err0 = some (.done (x, vs, s1, log1))) :
    (∃ b, vs = [.string b]) ∧ (x = .returned none ∨ vs = [.string val]) := by
  rcases hc : readUint64Call stk R fuel s log with _ | ⟨n, err1, s2, log2⟩
  · simp [readBody, hc] at h
  · cases err1 with
    | some e1 =>
      simp only [readBody, hc, ne_eq, reduceCtorEq, not_false_eq_true, if_true,
        Option.some.injEq, Outcome.done.injEq, Prod.mk.injEq] at h
      exact ⟨⟨val, h.2.1.symm⟩, Or.inr h.2.1.symm⟩
    | none =>
      rw [readBody_string rt stk R fuel val [] s s2 log log2 err0 n hc] at h
      split at h
      · simp only [Option.some.injEq, Outcome.done.injEq, Prod.mk.injEq] at h
        exact ⟨⟨val, h.2.1.symm⟩, Or.inr h.2.1.symm⟩
      · simp at h
      · split at h
        · simp at h
        · simp only [Option.some.injEq, Outcome.done.injEq, Prod.mk.injEq] at h
          exact ⟨⟨val, h.2.1.symm⟩, Or.inr h.2.1.symm⟩
        · split at h
          · simp only [Option.some.injEq, Outcome.done.injEq, Prod.mk.injEq] at h
            exact ⟨⟨val, h.2.1.symm⟩, Or.inr h.2.1.symm⟩
          · simp only [readBody, Option.some.injEq, Outcome.done.injEq, Prod.mk.injEq] at h
            exact ⟨⟨_, h.2.1.symm⟩, Or.inl h.1.symm⟩

theorem Receive_tag_fault {σ : Type} (rt : Runtime) (stk : Text) (R : Reader σ) (fuel : Nat)
    (s s1 : σ) (log : Log) (f : Fault)
    (hb : binaryRead R fuel s (.tag 0) = some (.panicked f, s1)) :
    Receive rt stk R fuel s log =
      some (.done (⟨0, []⟩, some (.recovered (panicMessage stk f)), s1, log)) := by
  simp only [Receive, read]
  rw [readBody_default rt stk R fuel (.tag 0) [.string []] s log none (by simp)]
  simp [hb, recoverHandler, messageOf]

theorem Receive_tag_error {σ : Type} (rt : Runtime) (stk : Text) (R : Reader σ) (fuel : Nat)
    (s s1 : σ) (log : Log) (v : Value) (e : GoError)
    (hb : binaryRead R fuel s (.tag 0) = some (.ret (v, some e), s1)) :
    Receive rt stk R fuel s log = some (.done (⟨0, []⟩, some e, s1, log)) := by
  rcases binaryRead_tag_value R fuel s s1 0 v (some e) hb with ⟨_, hv⟩ | ⟨h0, _⟩
  · subst hv
    simp only [Receive, read]
    rw [readBody_default rt stk R fuel (.tag 0) [.string []] s log none (by simp)]
    simp [hb, recoverHandler, messageOf]
  · cases h0

theorem Receive_length_error {σ : Type} (rt : Runtime) (stk : Text) (R : Reader σ)
    (fuel : Nat) (s s1 s2 : σ) (log log2 : Log) (t : Byte) (n : Nat) (e : GoError)
    (hb : binaryRead R fuel s (.tag 0) = some (.ret (.tag t, none), s1))
    (hc : readUint64Call stk R fuel s1 log = some (n, some e, s2, log2)) :
    Receive rt stk R fuel s log = some (.done (⟨t, []⟩, some e, s2, log)) := by
  have hlog := readUint64Call_log stk R fuel s1 s2 log log2 n (some e) hc
  rw [hlog] at hc
  simp only [Receive, read]
  rw [readBody_default rt stk R fuel (.tag 0) [.string []] s log none (by simp)]
  simp [hb, readBody, hc, recoverHandler, messageOf]

theorem Receive_body_error {σ : Type} (rt : Runtime) (stk : Text) (R : Reader σ)
    (fuel : Nat) (s s1 s2 s3 : σ) (log log2 : Log) (t : Byte) (n : Nat) (bs : List Byte)
    (e : GoError)
    (hb : binaryRead R fuel s (.tag 0) = some (.ret (.tag t, none), s1))
    (hc : readUint64Call stk R fuel s1 log = some (n, none, s2, log2))
    (hm : makeBytes rt (intOfUint64 n) = .made)
    (hr : ReadAtLeast R fuel s2 (intOfUint64 n).toNat (intOfUint64 n).toNat =
      some (.ret (bs, some e), s3)) :
    Receive rt stk R fuel s log = some (.done (⟨t, []⟩, some e, s3, log)) := by
  have hlog := readUint64Call_log stk R fuel s1 s2 log log2 n none hc
  rw [hlog] at hc
  simp only [Receive, read]
  rw [readBody_default rt stk R fuel (.tag 0) [.string []] s log none (by simp)]
  simp only [hb, ne_eq, not_true_eq_false, if_false]
  rw [readBody_string rt stk R fuel [] [] s1 s2 log log none n hc]
  simp [hm, hr, recoverHandler, messageOf]

theorem Receive_failure_shape {σ : Type} (rt : Runtime) (stk : Text) (R : Reader σ)
    (fuel : Nat) (s s1 : σ) (log log1 : Log) (m : Message) (e : GoError)
    (h : Receive rt stk R fuel s log = some (.done (m, some e, s1, log1))) :
    (binaryRead R fuel s (.tag 0) = none → False) ∧
    (∀ f s2, binaryRead R fuel s (.tag 0) = some (.panicked f, s2) → m = ⟨0, []⟩) ∧
    (∀ v e0 s2, binaryRead R fuel s (.tag 0) = some (.ret (v, some e0), s2) → m = ⟨0, []⟩) ∧
    (∀ v s2, binaryRead R fuel s (.tag 0) = some (.ret (v, none), s2) →
      ∃ t, v = .tag t ∧ m = ⟨t, []⟩) := by
  refine ⟨?_, ?_, ?_, ?_⟩
  · intro hb
    simp only [Receive, read] at h
    rw [readBody_default rt stk R fuel (.tag 0) [.string []] s log none (by simp)] at h
    simp [hb] at h
  · intro f s2 hb
    rw [Receive_tag_fault rt stk R fuel s s2 log f hb] at h
    simp only [Option.some.injEq, Outcome.done.injEq, Prod.mk.injEq] at h
    exact h.1.symm
  · intro v e0 s2 hb
    rw [Receive_tag_error rt stk R fuel s s2 log v e0 hb] at h
    simp only [Option.some.injEq, Outcome.done.injEq, Prod.mk.injEq] at h
    exact h.1.symm
  · intro v s2 hb
    rcases binaryRead_tag_value R fuel s s2 0 v none hb with ⟨h0, _⟩ | ⟨_, t, hv⟩
    · exact absurd rfl h0
    · subst hv
      refine ⟨t, rfl, ?_⟩
      simp only [Receive, read] at h
      rw [readBody_default rt stk R fuel (.tag 0) [.string []] s log none (by simp)] at h
      simp only [hb, ne_eq, not_true_eq_false, if_false] at h
      rcases hs : readBody rt stk R fuel [.string []] s2 log none with _ | o
      · simp [hs] at h
      · cases o with
        | fatal => simp [hs] at h
        | done a =>
          obtain ⟨x, vs, s3, log3⟩ := a
          obtain ⟨⟨b, hvs⟩, hx⟩ :=
            readBody_string_single rt stk R fuel [] s2 s3 log log3 none x vs hs
          simp only [hs, Option.some.injEq, Outcome.done.injEq, Prod.mk.injEq] at h
          rcases hx with hx | hx
          · subst hx
            simp [recoverHandler] at h
          · rw [hx] at h
            rw [← h.1]; rfl

/-! ## The claims -/

/-- C1, round trip: for every tag `t` (any byte) and every body `s` of fewer than `2 ^ 63`
bytes, `Send` on a writer whose `Write` calls all succeed returns nil, and `Receive` on a
transport holding exactly the bytes that `Send` wrote, handed over in pieces of any sizes,
returns the message `{t, s}` with a nil error, leaves the transport empty and logs nothing
(a loop of the reader may make `fuel` calls of `Read`, at least 8 and at least `len(s)`; the
receiving process can allocate the `len(s)` bytes of the body that it returns). -/
theorem roundtrip_Send_Receive {ω : Type} (W : Writer ω) (w : ω) (t : MessageType) (s : Text)
    (rt : Runtime) (stk : Text) (fuel : Nat) (chunks : List Nat) (log : Log)
    (hW : ∀ w p, (W.Write w p).1.2 = none) (hL : s.length < 2 ^ 63)
    (hm : makeBytes rt (s.length : Int) = .made) (hf : 8 ≤ fuel) (hf2 : s.length ≤ fuel) :
    (Send W w ⟨t, s⟩).1 = none ∧
    ∃ chunks1, Receive rt stk pipeReader fuel ⟨presented (Send W w ⟨t, s⟩).2.2, chunks⟩ log =
      some (.done (⟨t, s⟩, none, ⟨[], chunks1⟩, log)) := by
  obtain ⟨h1, h2⟩ := Send_presented W w ⟨t, s⟩ hW
  refine ⟨h1, ?_⟩
  obtain ⟨c1, hc1⟩ := Receive_frame rt stk fuel ⟨t, s⟩ [] chunks log hL hm hf hf2
  exact ⟨c1, by rw [h2]; simpa using hc1⟩

/-- C1, witness: `t = Log`, `s = "hello"`, written to a buffer and read back in pieces of one,
two and then all remaining bytes. -/
theorem roundtrip_Send_Receive_witness :
    (Send bufWriter [] ⟨MessageType.Log, [0x68, 0x65, 0x6c, 0x6c, 0x6f]⟩).1 = none ∧
    ∃ chunks1, Receive smallRuntime [] pipeReader 8
      ⟨presented (Send bufWriter [] ⟨MessageType.Log, [0x68, 0x65, 0x6c, 0x6c, 0x6f]⟩).2.2,
        [0, 1]⟩ [] =
      some (.done (⟨MessageType.Log, [0x68, 0x65, 0x6c, 0x6c, 0x6f]⟩, none, ⟨[], chunks1⟩,
        [])) :=
  roundtrip_Send_Receive bufWriter [] MessageType.Log [0x68, 0x65, 0x6c, 0x6c, 0x6f]
    smallRuntime [] 8 [0, 1] [] (fun _ _ => rfl) (by decide) (by decide) (by decide)
    (by decide)

/-- C2, wire format: for every message `{t, s}` with `len(s) = L < 2 ^ 64` and every writer
whose `Write` calls all succeed, `Send` returns nil and issues exactly three `Write` calls,
whose slices are `[t]`, `be64 L` and `s`; `be64 L` has 8 bytes and its big-endian value is `L`;
the bytes written are `[t] ++ be64 L ++ s`, which are `1 + 8 + L` bytes; and a buffer that held
`w` holds `w ++ [t] ++ be64 L ++ s` afterwards. -/
theorem Send_wire_format {ω : Type} (W : Writer ω) (w : ω) (t : MessageType) (s : Text)
    (buf : List Byte) (hW : ∀ w p, (W.Write w p).1.2 = none) (hL : s.length < 2 ^ 64) :
    (Send W w ⟨t, s⟩).1 = none ∧
    (Send W w ⟨t, s⟩).2.2.map (fun c => c.payload) = [[t], be64 s.length, s] ∧
    presented (Send W w ⟨t, s⟩).2.2 = [t] ++ be64 s.length ++ s ∧
    (be64 s.length).length = 8 ∧ beUint64 (be64 s.length) = s.length ∧
    ([t] ++ be64 s.length ++ s).length = 1 + 8 + s.length ∧
    (Send bufWriter buf ⟨t, s⟩).1 = none ∧
    (Send bufWriter buf ⟨t, s⟩).2.1 = buf ++ ([t] ++ be64 s.length ++ s) := by
  rcases h1 : W.Write w [t] with ⟨⟨n1, e1⟩, w1⟩
  have := hW w [t]; rw [h1] at this; simp only at this; subst this
  rcases h2 : W.Write w1 (be64 s.length) with ⟨⟨n2, e2⟩, w2⟩
  have := hW w1 (be64 s.length); rw [h2] at this; simp only at this; subst this
  rcases h3 : W.Write w2 s with ⟨⟨n3, e3⟩, w3⟩
  have := hW w2 s; rw [h3] at this; simp only at this; subst this
  have hv : beUint64 (be64 s.length) = s.length := by
    rw [beUint64_be64]; exact Nat.mod_eq_of_lt hL
  refine ⟨?_, ?_, ?_, be64_length _, hv, ?_, ?_, ?_⟩
  · simp [Send, write, writeUint64Call, binaryWrite, encodeFixed, h1, h2, h3]
  · simp [Send, write, writeUint64Call, binaryWrite, encodeFixed, h1, h2, h3]
  · simp [Send, write, writeUint64Call, binaryWrite, encodeFixed, h1, h2, h3, presented]
  · simp [be64_length]; omega
  · rw [Send_bufWriter]
  · rw [Send_bufWriter]; simp [frame]

/-- C2, witness: the two example vectors. `Send({Log, "hello"})` writes
`02 00 00 00 00 00 00 00 05 68 65 6c 6c 6f` and `Send({Error, ""})` writes
`01 00 00 00 00 00 00 00 00`. -/
theorem Send_wire_format_witness :
    (Send bufWriter [] ⟨MessageType.Log, [0x68, 0x65, 0x6c, 0x6c, 0x6f]⟩).2.1 =
      [0x02, 0, 0, 0, 0, 0, 0, 0, 0x05, 0x68, 0x65, 0x6c, 0x6c, 0x6f] ∧
    (Send bufWriter [] ⟨MessageType.Error, []⟩).2.1 = [0x01, 0, 0, 0, 0, 0, 0, 0, 0] :=
  ⟨(Send_wire_format bufWriter [] MessageType.Log [0x68, 0x65, 0x6c, 0x6c, 0x6f] []
      (fun _ _ => rfl) (by decide)).2.2.2.2.2.2.2,
   (Send_wire_format bufWriter [] MessageType.Error [] [] (fun _ _ => rfl)
      (by decide)).2.2.2.2.2.2.2⟩

/-- C3, exact consumption: for every message `{t, s}` with `len(s) = L < 2 ^ 63` and every byte
sequence `rest`, `Receive` on a transport holding `frame {t, s} ++ rest` returns `{t, s}` with
a nil error and leaves the transport holding exactly `rest`, which is what was held without
its first `1 + 8 + L` bytes; the frame is `1 + 8 + L` bytes long (the receiving process can
allocate the `L` bytes of the body that it returns). -/
theorem Receive_consumes_frame (rt : Runtime) (stk : Text) (fuel : Nat) (t : MessageType)
    (s : Text) (rest : List Byte) (chunks : List Nat) (log : Log) (hL : s.length < 2 ^ 63)
    (hm : makeBytes rt (s.length : Int) = .made) (hf : 8 ≤ fuel) (hf2 : s.length ≤ fuel) :
    (∃ chunks1, Receive rt stk pipeReader fuel ⟨frame ⟨t, s⟩ ++ rest, chunks⟩ log =
      some (.done (⟨t, s⟩, none, ⟨rest, chunks1⟩, log))) ∧
    (frame ⟨t, s⟩ ++ rest).drop (1 + 8 + s.length) = rest ∧
    (frame ⟨t, s⟩).length = 1 + 8 + s.length := by
  refine ⟨Receive_frame rt stk fuel ⟨t, s⟩ rest chunks log hL hm hf hf2, ?_, frame_length _⟩
  rw [← frame_length ⟨t, s⟩]; simp

/-- C3, witness: the frame of `{Log, "hello"}` followed by the two bytes `01 ff`. -/
theorem Receive_consumes_frame_witness :
    (∃ chunks1, Receive smallRuntime [] pipeReader 8
      ⟨frame ⟨MessageType.Log, [0x68, 0x65, 0x6c, 0x6c, 0x6f]⟩ ++ [0x01, 0xff], [2]⟩ [] =
      some (.done (⟨MessageType.Log, [0x68, 0x65, 0x6c, 0x6c, 0x6f]⟩, none,
        ⟨[0x01, 0xff], chunks1⟩, []))) ∧
    (frame ⟨MessageType.Log, [0x68, 0x65, 0x6c, 0x6c, 0x6f]⟩ ++ [0x01, 0xff]).drop (1 + 8 + 5)
      = [0x01, 0xff] ∧
    (frame ⟨MessageType.Log, [0x68, 0x65, 0x6c, 0x6c, 0x6f]⟩).length = 1 + 8 + 5 :=
  Receive_consumes_frame smallRuntime [] 8 MessageType.Log [0x68, 0x65, 0x6c, 0x6c, 0x6f]
    [0x01, 0xff] [2] [] (by decide) (by decide) (by decide) (by decide)

theorem sendAll_bufWriter (msgs : List Message) : ∀ (w : List Byte),
    sendAll bufWriter w msgs =
      (msgs.map (fun _ => none), w ++ (msgs.map frame).flatten) := by
  induction msgs with
  | nil => intro w; simp [sendAll]
  | cons m ms ih => intro w; simp [sendAll, Send_bufWriter, ih]

theorem receiveAll_frames (rt : Runtime) (stk : Text) (fuel : Nat) (log : Log)
    (rest : List Byte) (hf : 8 ≤ fuel) : ∀ (msgs : List Message) (chunks : List Nat),
    (∀ m ∈ msgs, m.Body.length < 2 ^ 63 ∧ makeBytes rt (m.Body.length : Int) = .made ∧
      m.Body.length ≤ fuel) →
    ∃ chunks1, receiveAll rt stk pipeReader fuel msgs.length
        ⟨(msgs.map frame).flatten ++ rest, chunks⟩ log =
      some (.done (msgs.map (fun m => (m, none)), ⟨rest, chunks1⟩, log)) := by
  intro msgs
  induction msgs with
  | nil => intro chunks _; exact ⟨chunks, by simp [receiveAll]⟩
  | cons m ms ih =>
    intro chunks h
    obtain ⟨hL, hm, hf2⟩ := h m (by simp)
    obtain ⟨c1, hc1⟩ := Receive_frame rt stk fuel m ((ms.map frame).flatten ++ rest) chunks
      log hL hm hf hf2
    obtain ⟨c2, hc2⟩ := ih c1 (fun x hx => h x (by simp [hx]))
    refine ⟨c2, ?_⟩
    simp only [List.map_cons, List.flatten_cons, List.length_cons, List.append_assoc,
      receiveAll, hc1, hc2]

/-- C4, pipelining: for every list of messages, each body shorter than `2 ^ 63` bytes, when
`Send` is called on them in order on one buffer, every `Send` returns nil, and as many
consecutive calls of `Receive` on a transport holding what the buffer then holds (handed over
in pieces of any sizes) return the same messages in the same order, each with a nil error,
and leave the transport empty (the receiving process can allocate each body that it
returns). -/
theorem pipelining (rt : Runtime) (stk : Text) (fuel : Nat) (msgs : List Message)
    (chunks : List Nat) (log : Log) (hf : 8 ≤ fuel)
    (hL : ∀ m ∈ msgs, m.Body.length < 2 ^ 63 ∧ makeBytes rt (m.Body.length : Int) = .made ∧
      m.Body.length ≤ fuel) :
    (sendAll bufWriter [] msgs).1 = msgs.map (fun _ => none) ∧
    ∃ chunks1, receiveAll rt stk pipeReader fuel msgs.length
        ⟨(sendAll bufWriter [] msgs).2, chunks⟩ log =
      some (.done (msgs.map (fun m => (m, none)), ⟨[], chunks1⟩, log)) := by
  rw [sendAll_bufWriter]
  refine ⟨rfl, ?_⟩
  obtain ⟨c1, hc1⟩ := receiveAll_frames rt stk fuel log [] hf msgs chunks hL
  exact ⟨c1, by simpa using hc1⟩

/-- C4, witness: `{Log, "hi"}`, `{Error, ""}`, `{Call, "x"}` sent and received in that order. -/
theorem pipelining_witness :
    (sendAll bufWriter [] [⟨MessageType.Log, [0x68, 0x69]⟩, ⟨MessageType.Error, []⟩,
      ⟨MessageType.Call, [0x78]⟩]).1 = [none, none, none] ∧
    ∃ chunks1, receiveAll smallRuntime [] pipeReader 8 3
        ⟨(sendAll bufWriter [] [⟨MessageType.Log, [0x68, 0x69]⟩, ⟨MessageType.Error, []⟩,
          ⟨MessageType.Call, [0x78]⟩]).2, [3, 0, 0]⟩ [] =
      some (.done ([(⟨MessageType.Log, [0x68, 0x69]⟩, none), (⟨MessageType.Error, []⟩, none),
        (⟨MessageType.Call, [0x78]⟩, none)], ⟨[], chunks1⟩, [])) :=
  pipelining smallRuntime [] 8 [⟨MessageType.Log, [0x68, 0x69]⟩, ⟨MessageType.Error, []⟩,
    ⟨MessageType.Call, [0x78]⟩] [3, 0, 0] [] (by decide) (by decide)

theorem be64_two_pow_40 : be64 (2 ^ 40) = [0, 0, 1, 0, 0, 0, 0, 0] := by decide

theorem bigBody_cons : bigBody = 0x41 :: List.replicate (2 ^ 40 - 1) 0x41 := by
  have h : (2 : Nat) ^ 40 = 2 ^ 40 - 1 + 1 := by norm_num
  exact (congrArg (fun n => List.replicate n (0x41 : Byte)) h).trans
    (List.replicate_succ 0x41 (2 ^ 40 - 1))

theorem bigBody_length : bigBody.length = 2 ^ 40 := List.length_replicate _ _

/-- C5, counterexample: the ten bytes `02 00 00 01 00 00 00 00 00 41` are a proper prefix of
the frame of the message `{Log, s}` with `s` made of `2 ^ 40` bytes `41`. On a transport that
holds them and then ends, in a process that has room for `2 ^ 32` bytes, `Receive` does not
return an error: `make` is asked for the `2 ^ 40` bytes of the length prefix before any byte
of the body is read, and the process ends with the fatal error `out of memory`. -/
theorem truncated_frame_aborts :
    [0x02, 0, 0, 1, 0, 0, 0, 0, 0, 0x41] <+: frame ⟨MessageType.Log, bigBody⟩ ∧
    [0x02, 0, 0, 1, 0, 0, 0, 0, 0, 0x41] ≠ frame ⟨MessageType.Log, bigBody⟩ ∧
    bigBody.length < 2 ^ 63 ∧
    Receive smallRuntime [] pipeReader 10 ⟨[0x02, 0, 0, 1, 0, 0, 0, 0, 0, 0x41], []⟩ [] =
      some .fatal := by
  refine ⟨?_, ?_, ?_, Receive_pipe_fatal smallRuntime [] 10 0x02 [0, 0, 1, 0, 0, 0, 0, 0]
    [0x41] [] [] rfl (by decide) (by decide)⟩
  · refine ⟨List.replicate (2 ^ 40 - 1) 0x41, ?_⟩
    simp only [frame, bigBody_length, be64_two_pow_40]
    rw [bigBody_cons]
    rfl
  · intro h
    have hl : (frame ⟨MessageType.Log, bigBody⟩).length = 1 + 8 + 2 ^ 40 :=
      (frame_length _).trans (congrArg (fun n => 1 + 8 + n) bigBody_length)
    have h10 := congrArg List.length h
    rw [hl] at h10
    simp only [List.length_cons, List.length_nil] at h10
    omega
  · exact bigBody_length.trans_lt (by norm_num)

/-- C5, amended: for every message `{t, s}` (a Go string has fewer than `2 ^ 63` bytes) and
every proper prefix `p` of its frame, `Receive` on a transport that holds exactly `p` and then
ends never returns a nil error: it returns a non-nil error or the process ends. When the
process can allocate the `len(s)` bytes that the length prefix asks for, `Receive` returns,
with the error `io.EOF` or `io.ErrUnexpectedEOF` and with a message whose body is empty; the
transport is left empty and nothing is logged. -/
theorem Receive_truncated_frame (rt : Runtime) (stk : Text) (fuel : Nat) (t : MessageType)
    (s : Text) (p : List Byte) (chunks : List Nat) (log : Log) (hL : s.length < 2 ^ 63)
    (hp : p <+: frame ⟨t, s⟩) (hne : p ≠ frame ⟨t, s⟩) (hf : 8 ≤ fuel) (hf2 : s.length ≤ fuel) :
    (∃ o, Receive rt stk pipeReader fuel ⟨p, chunks⟩ log = some o ∧
      ∀ msg p1 log1, o ≠ .done (msg, none, p1, log1)) ∧
    (makeBytes rt (s.length : Int) = .made →
      ∃ msg e chunks1, Receive rt stk pipeReader fuel ⟨p, chunks⟩ log =
          some (.done (msg, some e, ⟨[], chunks1⟩, log)) ∧
        (e = .EOF ∨ e = .ErrUnexpectedEOF) ∧ msg.Body = []) := by
  cases p with
  | nil =>
    obtain ⟨c1, hc1⟩ := Receive_pipe_empty rt stk fuel chunks log (by omega)
    exact ⟨⟨_, hc1, by simp⟩, fun _ => ⟨_, _, c1, hc1, Or.inl rfl, rfl⟩⟩
  | cons t1 q =>
    simp only [frame] at hp hne
    rw [List.cons_prefix_cons] at hp
    obtain ⟨rfl, hq⟩ := hp
    by_cases h8 : q.length < 8
    · obtain ⟨c1, hc1⟩ := Receive_pipe_short_length rt stk fuel t1 q chunks log h8 (by omega)
      refine ⟨⟨_, hc1, by simp⟩, fun _ => ⟨_, _, c1, hc1, ?_, rfl⟩⟩
      split <;> simp
    · have hq2 := List.prefix_iff_eq_take.mp hq
      rw [List.take_append_eq_append_take, be64_length,
        List.take_of_length_le (by rw [be64_length]; omega)] at hq2
      have hlt : (s.take (q.length - 8)).length < s.length := by
        by_contra hc
        have hfull : s.take (q.length - 8) = s := by
          apply List.take_of_length_le
          simp only [List.length_take] at hc
          omega
        rw [hfull] at hq2
        exact hne (by rw [hq2])
      have hN : beUint64 (be64 s.length) = s.length := by
        rw [beUint64_be64]; exact Nat.mod_eq_of_lt (by omega)
      have hshort : makeBytes rt (s.length : Int) = .made →
          ∃ chunks1, Receive rt stk pipeReader fuel ⟨t1 :: q, chunks⟩ log =
            some (.done (⟨t1, []⟩,
              some (if s.take (q.length - 8) = [] then .EOF else .ErrUnexpectedEOF),
              ⟨[], chunks1⟩, log)) := by
        intro hm
        obtain ⟨c1, hc1⟩ := Receive_pipe_short_body rt stk fuel t1 (be64 s.length)
          (s.take (q.length - 8)) chunks log (be64_length _)
          (by rw [hN]; exact makeBytes_of_nat rt _ hL hm) (by omega) hf (by omega)
        rw [← hq2] at hc1
        exact ⟨c1, hc1⟩
      refine ⟨?_, fun hm => ?_⟩
      · rcases hmk : makeBytes rt (s.length : Int) with _ | _ | _
        · obtain ⟨c1, hc1⟩ := hshort hmk
          exact ⟨_, hc1, by simp⟩
        · obtain ⟨c1, hc1⟩ := Receive_pipe_out_of_range rt stk fuel t1 (be64 s.length)
            (s.take (q.length - 8)) chunks log (be64_length _)
            (by rw [hN, intOfUint64_nonneg _ hL]; exact hmk) hf
          rw [← hq2] at hc1
          exact ⟨_, hc1, by simp⟩
        · have hc1 := Receive_pipe_fatal rt stk fuel t1 (be64 s.length)
            (s.take (q.length - 8)) chunks log (be64_length _)
            (by rw [hN, intOfUint64_nonneg _ hL]; exact hmk) hf
          rw [← hq2] at hc1
          exact ⟨_, hc1, by simp⟩
      · obtain ⟨c1, hc1⟩ := hshort hm
        refine ⟨_, _, c1, hc1, ?_, rfl⟩
        split <;> simp

/-- C5, witness of the amended claim: the frame of `{Log, "hello"}` cut after the first byte of
the body, in a process that can allocate five bytes. -/
theorem Receive_truncated_frame_witness :
    ∃ msg e chunks1, Receive smallRuntime [] pipeReader 8
          ⟨[0x02, 0, 0, 0, 0, 0, 0, 0, 0x05, 0x68], []⟩ [] =
        some (.done (msg, some e, ⟨[], chunks1⟩, [])) ∧
      (e = .EOF ∨ e = .ErrUnexpectedEOF) ∧ msg.Body = [] :=
  (Receive_truncated_frame smallRuntime [] 8 MessageType.Log [0x68, 0x65, 0x6c, 0x6c, 0x6f]
    [0x02, 0, 0, 0, 0, 0, 0, 0, 0x05, 0x68] [] [] (by decide) (by decide) (by decide)
    (by decide) (by decide)).2 (by decide)

theorem Receive_pipe_cases (rt : Runtime) (stk : Text) (fuel : Nat) (data : List Byte)
    (chunks : List Nat) (log : Log) (hf : 8 ≤ fuel) (hf2 : data.length < fuel) :
    (data.length < 8 ∨ makeBytes rt (intOfUint64 (beUint64 (data.take 8))) ≠ .outOfMemory →
      ∃ body err rem, ∀ t1 : Byte, ∃ chunks1,
        Receive rt stk pipeReader fuel ⟨t1 :: data, chunks⟩ log =
          some (.done (⟨t1, body⟩, err, ⟨rem, chunks1⟩, log))) ∧
    (8 ≤ data.length ∧ makeBytes rt (intOfUint64 (beUint64 (data.take 8))) = .outOfMemory →
      ∀ t1 : Byte, Receive rt stk pipeReader fuel ⟨t1 :: data, chunks⟩ log = some .fatal) := by
  by_cases h8 : data.length < 8
  · exact ⟨fun _ => ⟨_, _, _, fun t1 =>
      Receive_pipe_short_length rt stk fuel t1 data chunks log h8 hf2⟩, fun h => by omega⟩
  · have hd : data = data.take 8 ++ data.drop 8 := (List.take_append_drop 8 data).symm
    have hl : (data.take 8).length = 8 := by simp only [List.length_take]; omega
    have hr : (data.drop 8).length < fuel := by simp only [List.length_drop]; omega
    generalize data.take 8 = hdr at hd hl
    generalize data.drop 8 = rest at hd hr
    subst hd
    constructor
    · intro hnm
      have hnm2 : makeBytes rt (intOfUint64 (beUint64 hdr)) ≠ .outOfMemory := by
        rcases hnm with h | h
        · exact absurd h h8
        · exact h
      rcases hmk : makeBytes rt (intOfUint64 (beUint64 hdr)) with _ | _ | _
      · by_cases hb : beUint64 hdr ≤ rest.length
        · exact ⟨_, _, _, fun t1 => Receive_pipe_ok rt stk fuel t1 _ _ chunks log hl hmk hb hf
            (by omega)⟩
        · exact ⟨_, _, _, fun t1 => Receive_pipe_short_body rt stk fuel t1 _ _ chunks log hl
            hmk (by omega) hf hr⟩
      · exact ⟨_, _, _, fun t1 => Receive_pipe_out_of_range rt stk fuel t1 _ _ chunks log hl
          hmk hf⟩
      · exact absurd hmk hnm2
    · intro h t1
      exact Receive_pipe_fatal rt stk fuel t1 _ _ chunks log hl h.2 hf

/-- C6, counterexample: the nine bytes `07 00 00 00 00 00 00 00 00` start with a byte that is
none of the six `MessageType` values, and `Receive` returns the message `{7, ""}` with a nil
error. -/
theorem Receive_accepts_unknown_tag :
    (7 : MessageType) ∉ [MessageType.Error, MessageType.Log, MessageType.Call,
      MessageType.Hijack, MessageType.ReadLineRequest, MessageType.ReadLineResponse] ∧
    Receive smallRuntime [] pipeReader 8 ⟨[0x07, 0, 0, 0, 0, 0, 0, 0, 0], []⟩ [] =
      some (.done (⟨7, []⟩, none, ⟨[], []⟩, [])) :=
  ⟨by decide, rfl⟩

/-- C6, amended: `Receive` does not inspect the tag. For every transport, what `Receive` does
does not depend on the first byte, except that the `Type` of the returned message is that
byte: with the same bytes after it, any two first bytes give the same error (nil or not), the
same body and the same bytes left, and where one makes the process end for want of memory so
does the other. And for every byte `t`, one of the six values or not, `Receive` on a transport
holding `t`, the length of `s` and `s` returns `{t, s}` with a nil error when the process can
allocate the body. -/
theorem Receive_ignores_tag (rt : Runtime) (stk : Text) (fuel : Nat) (t1 t2 : Byte)
    (data s rest : List Byte) (chunks : List Nat) (log : Log) (hf : 8 ≤ fuel)
    (hf2 : data.length < fuel) (hL : s.length < 2 ^ 63)
    (hm : makeBytes rt (s.length : Int) = .made) (hf3 : s.length ≤ fuel) :
    (data.length < 8 ∨ makeBytes rt (intOfUint64 (beUint64 (data.take 8))) ≠ .outOfMemory →
      ∃ body err rem chunks1 chunks2,
        Receive rt stk pipeReader fuel ⟨t1 :: data, chunks⟩ log =
          some (.done (⟨t1, body⟩, err, ⟨rem, chunks1⟩, log)) ∧
        Receive rt stk pipeReader fuel ⟨t2 :: data, chunks⟩ log =
          some (.done (⟨t2, body⟩, err, ⟨rem, chunks2⟩, log))) ∧
    (8 ≤ data.length ∧ makeBytes rt (intOfUint64 (beUint64 (data.take 8))) = .outOfMemory →
      Receive rt stk pipeReader fuel ⟨t1 :: data, chunks⟩ log = some .fatal ∧
      Receive rt stk pipeReader fuel ⟨t2 :: data, chunks⟩ log = some .fatal) ∧
    ∃ chunks1, Receive rt stk pipeReader fuel ⟨t1 :: (be64 s.length ++ s ++ rest), chunks⟩ log =
      some (.done (⟨t1, s⟩, none, ⟨rest, chunks1⟩, log)) := by
  obtain ⟨hA, hB⟩ := Receive_pipe_cases rt stk fuel data chunks log hf hf2
  refine ⟨fun h => ?_, fun h => ⟨hB h t1, hB h t2⟩, ?_⟩
  · obtain ⟨body, err, rem, h1⟩ := hA h
    obtain ⟨c1, hc1⟩ := h1 t1
    obtain ⟨c2, hc2⟩ := h1 t2
    exact ⟨body, err, rem, c1, c2, hc1, hc2⟩
  · obtain ⟨c1, hc1⟩ := Receive_frame rt stk fuel ⟨t1, s⟩ rest chunks log hL hm hf hf3
    exact ⟨c1, by simpa [frame] using hc1⟩

/-- C6, witness of the amended claim: the tags 7 and `Log` before the same bytes, and the
tag 7 before an empty body. -/
theorem Receive_ignores_tag_witness :
    (∃ body err rem chunks1 chunks2,
      Receive smallRuntime [] pipeReader 10 ⟨7 :: [0, 0, 0, 0, 0, 0, 0, 1, 0x41], []⟩ [] =
        some (.done (⟨7, body⟩, err, ⟨rem, chunks1⟩, [])) ∧
      Receive smallRuntime [] pipeReader 10
          ⟨MessageType.Log :: [0, 0, 0, 0, 0, 0, 0, 1, 0x41], []⟩ [] =
        some (.done (⟨MessageType.Log, body⟩, err, ⟨rem, chunks2⟩, []))) ∧
    ∃ chunks1, Receive smallRuntime [] pipeReader 10
        ⟨7 :: (be64 ([] : Text).length ++ [] ++ []), []⟩ [] =
      some (.done (⟨7, []⟩, none, ⟨[], chunks1⟩, [])) :=
  ⟨(Receive_ignores_tag smallRuntime [] 10 7 MessageType.Log [0, 0, 0, 0, 0, 0, 0, 1, 0x41] []
      [] [] [] (by decide) (by decide) (by decide) (by decide) (by decide)).1
      (Or.inr (by decide)),
   (Receive_ignores_tag smallRuntime [] 10 7 MessageType.Log [0, 0, 0, 0, 0, 0, 0, 1, 0x41] []
      [] [] [] (by decide) (by decide) (by decide) (by decide) (by decide)).2.2⟩

/-- C7, fault containment. For every reader and every list of arguments: when the body of `read`
ends in a panic with the value `f` while the named result `err` is nil, `read` returns, and
its error is the non-nil `errors.New(msg)` with `msg` the message formatted for `f`; the same
holds for a panic raised by the first `Read` call of a transport under `Receive`. In particular,
for every transport whose first nine bytes are a tag `t` and a length prefix `N ≥ 2 ^ 63`,
whatever follows, `Receive` returns with the message `{t, ""}` and that non-nil error for the
value with which `make` panics. -/
theorem read_contains_fault {σ : Type} (rt : Runtime) (stk : Text) (R : Reader σ) (fuel : Nat)
    (args : List Value) (s : σ) (log : Log) (t : Byte) (hdr rest : List Byte)
    (chunks : List Nat) (h8 : hdr.length = 8) (hN : 2 ^ 63 ≤ beUint64 hdr) (hf : 8 ≤ fuel) :
    (∀ f vs s1 log1,
      readBody rt stk R fuel args s log none = some (.done (.panicked f none, vs, s1, log1)) →
      read rt stk R fuel args s log =
        some (.done (some (.recovered (panicMessage stk f)), vs, s1, log1))) ∧
    (∀ f s1, R.Read s 1 = (.fault f, s1) →
      Receive rt stk R fuel s log =
        some (.done (⟨0, []⟩, some (.recovered (panicMessage stk f)), s1, log))) ∧
    (∃ chunks1, readBody rt stk pipeReader fuel [.tag 0, .string []]
        ⟨t :: (hdr ++ rest), chunks⟩ log none =
      some (.done (.panicked makesliceFault none, [.tag t, .string []], ⟨rest, chunks1⟩,
        log))) ∧
    ∃ chunks1, Receive rt stk pipeReader fuel ⟨t :: (hdr ++ rest), chunks⟩ log =
      some (.done (⟨t, []⟩, some (.recovered (panicMessage stk makesliceFault)),
        ⟨rest, chunks1⟩, log)) := by
  refine ⟨?_, ?_, ?_, Receive_pipe_negative rt stk fuel t hdr rest chunks log h8 hN hf⟩
  · intro f vs s1 log1 h
    simp [read, h, recoverHandler]
  · intro f s1 h
    obtain ⟨k, rfl⟩ : ∃ k, fuel = k + 1 := ⟨fuel - 1, by omega⟩
    simp [Receive, read, readBody, binaryRead, ReadFull, ReadAtLeast, readAtLeastLoop, h,
      recoverHandler, messageOf]
  · obtain ⟨c1, c2, hc1, hc2⟩ := Receive_pipe_header stk fuel t hdr rest chunks log h8 hf
    refine ⟨c2, ?_⟩
    have hm := makeBytes_negative rt _ (intOfUint64_neg _ hN (beUint64_lt hdr h8))
    simp [readBody, hc1, hc2, hm]

/-- C7, witness: the tag `Log` and the length prefix `80 00 00 00 00 00 00 00`, which is
`2 ^ 63`, followed by one more byte. -/
theorem read_contains_fault_witness :
    ∃ chunks1, Receive smallRuntime [] pipeReader 8
        ⟨MessageType.Log :: ([0x80, 0, 0, 0, 0, 0, 0, 0] ++ [0x41]), [0]⟩ [] =
      some (.done (⟨MessageType.Log, []⟩, some (.recovered (panicMessage [] makesliceFault)),
        ⟨[0x41], chunks1⟩, [])) :=
  (read_contains_fault smallRuntime [] pipeReader 8 [] ⟨[], []⟩ [] MessageType.Log
    [0x80, 0, 0, 0, 0, 0, 0, 0] [0x41] [0] (by decide) (by decide) (by decide)).2.2.2

/-- C8, counterexample: after the tag `Log` and the length prefix 5, a transport that ends at
once makes `Receive` fail with `io.EOF`, the very error it returns on an empty transport, while
a transport that ends after one of the five bytes makes it fail with `io.ErrUnexpectedEOF`:
the two short reads do not fail with the same error, and the first is not distinct from the
plain end of stream. -/
theorem short_read_errors_differ :
    Receive smallRuntime [] pipeReader 8 ⟨[0x02, 0, 0, 0, 0, 0, 0, 0, 0x05], []⟩ [] =
      some (.done (⟨2, []⟩, some .EOF, ⟨[], []⟩, [])) ∧
    Receive smallRuntime [] pipeReader 8 ⟨[0x02, 0, 0, 0, 0, 0, 0, 0, 0x05, 0x68], []⟩ [] =
      some (.done (⟨2, []⟩, some .ErrUnexpectedEOF, ⟨[], []⟩, [])) ∧
    Receive smallRuntime [] pipeReader 8 ⟨[], []⟩ [] =
      some (.done (⟨0, []⟩, some .EOF, ⟨[], []⟩, [])) :=
  ⟨rfl, rfl, rfl⟩

/-- C8, amended: for every transport that delivers a tag `t` and a length prefix `N` and then
fewer than `N` body bytes before ending (so `N > 0`): when the process can allocate `N` bytes,
`Receive` fails, with the message `{t, ""}`, with `io.ErrUnexpectedEOF` when at least one body
byte arrived, an error distinct from the `io.EOF` that `Receive` returns on an empty
transport, and with that same `io.EOF` when none arrived; when `N` is `2 ^ 63` or more, or
above the allocation limit of the runtime, `Receive` fails with the error made from the panic
of `make`, whether body bytes arrived or not. -/
theorem Receive_short_body_error (rt : Runtime) (stk : Text) (fuel : Nat) (t : Byte)
    (hdr rest : List Byte) (chunks : List Nat) (log : Log) (h8 : hdr.length = 8)
    (hr : rest.length < beUint64 hdr) (hf : 8 ≤ fuel) (hf2 : rest.length < fuel) :
    (makeBytes rt (intOfUint64 (beUint64 hdr)) = .made →
      ∃ chunks1, Receive rt stk pipeReader fuel ⟨t :: (hdr ++ rest), chunks⟩ log =
        some (.done (⟨t, []⟩, some (if rest = [] then .EOF else .ErrUnexpectedEOF),
          ⟨[], chunks1⟩, log))) ∧
    (2 ^ 63 ≤ beUint64 hdr ∨ rt.maxAlloc < beUint64 hdr →
      ∃ chunks1, Receive rt stk pipeReader fuel ⟨t :: (hdr ++ rest), chunks⟩ log =
        some (.done (⟨t, []⟩, some (.recovered (panicMessage stk makesliceFault)),
          ⟨rest, chunks1⟩, log))) ∧
    (∃ chunks1, Receive rt stk pipeReader fuel ⟨[], chunks⟩ log =
      some (.done (⟨0, []⟩, some .EOF, ⟨[], chunks1⟩, log))) ∧
    GoError.ErrUnexpectedEOF ≠ GoError.EOF := by
  refine ⟨fun hm => Receive_pipe_short_body rt stk fuel t hdr rest chunks log h8 hm hr hf hf2,
    fun h => ?_, Receive_pipe_empty rt stk fuel chunks log (by omega), by decide⟩
  apply Receive_pipe_out_of_range rt stk fuel t hdr rest chunks log h8 _ hf
  by_cases h63 : beUint64 hdr < 2 ^ 63
  · have hlim : rt.maxAlloc < beUint64 hdr := by
      rcases h with h | h
      · omega
      · exact h
    rw [intOfUint64_nonneg _ h63]
    have : (rt.maxAlloc : Int) < (beUint64 hdr : Int) := by exact_mod_cast hlim
    simp [makeBytes, this]
  · exact makeBytes_negative rt _ (intOfUint64_neg _ (by omega) (beUint64_lt hdr h8))

/-- C8, witness of the amended claim: the tag `Log`, the length prefix 5 and the two bytes
`68 65`, in a process that can allocate five bytes. -/
theorem Receive_short_body_error_witness :
    ∃ chunks1, Receive smallRuntime [] pipeReader 8
        ⟨MessageType.Log :: ([0, 0, 0, 0, 0, 0, 0, 5] ++ [0x68, 0x65]), [0]⟩ [] =
      some (.done (⟨MessageType.Log, []⟩,
        some (if ([0x68, 0x65] : List Byte) = [] then .EOF else .ErrUnexpectedEOF),
        ⟨[], chunks1⟩, [])) :=
  (Receive_short_body_error smallRuntime [] 8 MessageType.Log [0, 0, 0, 0, 0, 0, 0, 5]
    [0x68, 0x65] [0] [] (by decide) (by decide) (by decide) (by decide)).1 (by decide)

/-- C9, counterexample: a writer whose first `Write` takes no byte and returns a nil error.
`Send({Log, "hello"})` issues its three `Write` calls and returns nil, and the bytes the writer
accepted, the length prefix and the body without the tag, are not a prefix of the frame:
`write` drops the count that `Write` returns. -/
theorem Send_accepted_not_frame_start :
    (Send lossyWriter 0 ⟨MessageType.Log, [0x68, 0x65, 0x6c, 0x6c, 0x6f]⟩).1 = none ∧
    accepted (Send lossyWriter 0 ⟨MessageType.Log, [0x68, 0x65, 0x6c, 0x6c, 0x6f]⟩).2.2 =
      [0, 0, 0, 0, 0, 0, 0, 5, 0x68, 0x65, 0x6c, 0x6c, 0x6f] ∧
    ¬ accepted (Send lossyWriter 0 ⟨MessageType.Log, [0x68, 0x65, 0x6c, 0x6c, 0x6f]⟩).2.2 <+:
      frame ⟨MessageType.Log, [0x68, 0x65, 0x6c, 0x6c, 0x6f]⟩ := by
  decide

/-- C9, amended: fail-fast encode. For every message and every writer, with `calls` the `Write`
calls that `Send` issues, in order:
the first call is `Write([tag])` on the writer as it was; the slices passed are, in order, a
prefix of `[tag]`, `be64 L`, `body`, so the bytes passed to the writer are a prefix of the
frame; every call but the last issued returned a nil error, and
the error `Send` returns is the error of the last call issued (so as soon as a call returns
an error `e`, no later call is issued and `Send` returns exactly `e`); `Send` returns nil
exactly when three calls were issued and all returned nil; and when every call kept the
contract of `io.Writer` (`n ≤ len(p)`, and a non-nil error when `n < len(p)`), the bytes
accepted are a prefix of the frame. -/
theorem Send_fail_fast {ω : Type} (W : Writer ω) (w : ω) (m : Message) :
    (Send W w m).2.2.head? =
      some ⟨[m.Typ], (W.Write w [m.Typ]).1.1, (W.Write w [m.Typ]).1.2⟩ ∧
    (Send W w m).2.2.map (fun c => c.payload) <+: [[m.Typ], be64 m.Body.length, m.Body] ∧
    presented (Send W w m).2.2 <+: frame m ∧
    (∀ c ∈ (Send W w m).2.2.dropLast, c.err = none) ∧
    (Send W w m).2.2.getLast?.map (fun c => c.err) = some (Send W w m).1 ∧
    ((Send W w m).1 = none ↔
      (Send W w m).2.2.length = 3 ∧ ∀ c ∈ (Send W w m).2.2, c.err = none) ∧
    ((∀ c ∈ (Send W w m).2.2, c.n ≤ c.payload.length ∧
        (c.n < c.payload.length → c.err ≠ none)) →
      accepted (Send W w m).2.2 <+: frame m) := by
  rcases h1 : W.Write w [m.Typ] with ⟨⟨n1, e1⟩, w1⟩
  rcases h2 : W.Write w1 (be64 m.Body.length) with ⟨⟨n2, e2⟩, w2⟩
  rcases h3 : W.Write w2 m.Body with ⟨⟨n3, e3⟩, w3⟩
  cases e1 with
  | some e1 =>
    simp only [Send, write, writeUint64Call, binaryWrite, encodeFixed, h1, accepted, frame]
    refine ⟨rfl, ⟨[be64 m.Body.length, m.Body], rfl⟩, by simp [presented], by simp, by simp,
      by simp, ?_⟩
    intro _
    simp only [List.map_cons, List.map_nil, List.flatten_cons, List.flatten_nil,
      List.append_nil]
    exact (List.take_prefix _ _).trans (List.prefix_append [m.Typ] _)
  | none =>
    cases e2 with
    | some e2 =>
      simp only [Send, write, writeUint64Call, binaryWrite, encodeFixed, h1, h2, accepted,
        frame]
      refine ⟨rfl, ⟨[m.Body], rfl⟩, by simp [presented], by simp, by simp, by simp, ?_⟩
      intro hc
      have hn1 : n1 = 1 := by
        have := hc ⟨[m.Typ], n1, none⟩ (by simp)
        simp only [List.length_singleton, ne_eq, not_true_eq_false, imp_false] at this
        omega
      subst hn1
      simp only [List.nil_append, List.map_cons, List.map_nil, List.flatten_cons,
        List.flatten_nil, List.append_nil, List.take_succ_cons, List.take_zero,
        List.singleton_append]
      rw [List.cons_prefix_cons]
      exact ⟨rfl, (List.take_prefix _ _).trans (List.prefix_append _ _)⟩
    | none =>
      have hpre : ∀ e3, (∀ c ∈ [(⟨[m.Typ], n1, none⟩ : WriteCall),
            ⟨be64 m.Body.length, n2, none⟩, ⟨m.Body, n3, e3⟩],
            c.n ≤ c.payload.length ∧ (c.n < c.payload.length → c.err ≠ none)) →
          accepted [(⟨[m.Typ], n1, none⟩ : WriteCall), ⟨be64 m.Body.length, n2, none⟩,
            ⟨m.Body, n3, e3⟩] <+: frame m := by
        intro e3 hc
        have hn1 : n1 = 1 := by
          have := hc ⟨[m.Typ], n1, none⟩ (by simp)
          simp only [List.length_singleton, ne_eq, not_true_eq_false, imp_false] at this
          omega
        have hn2 : n2 = 8 := by
          have := hc ⟨be64 m.Body.length, n2, none⟩ (by simp)
          simp only [be64_length, ne_eq, not_true_eq_false, imp_false] at this
          omega
        subst hn1 hn2
        simp only [accepted, frame, List.map_cons, List.map_nil, List.flatten_cons,
          List.flatten_nil, List.append_nil, List.take_succ_cons, List.take_zero,
          List.singleton_append]
        rw [List.cons_prefix_cons]
        refine ⟨rfl, ?_⟩
        rw [List.take_of_length_le (by rw [be64_length]), List.prefix_append_right_inj]
        exact List.take_prefix _ _
      cases e3 with
      | some e3 =>
        simp only [Send, write, writeUint64Call, binaryWrite, encodeFixed, h1, h2, h3]
        exact ⟨rfl, by simp, by simp [presented, frame], by simp, by simp, by simp,
          hpre (some e3)⟩
      | none =>
        simp only [Send, write, writeUint64Call, binaryWrite, encodeFixed, h1, h2, h3]
        exact ⟨rfl, by simp, by simp [presented, frame], by simp, by simp, by simp, hpre none⟩

/-- C9, witness of the amended claim: `Send({Log, "hello"})` on a writer whose second `Write` takes three bytes and
fails: the tag and three bytes of the length prefix were accepted, a prefix of the frame. -/
theorem Send_fail_fast_witness :
    accepted (Send flakyWriter 0 ⟨MessageType.Log, [0x68, 0x65, 0x6c, 0x6c, 0x6f]⟩).2.2 <+:
      frame ⟨MessageType.Log, [0x68, 0x65, 0x6c, 0x6c, 0x6f]⟩ :=
  (Send_fail_fast flakyWriter 0 ⟨MessageType.Log, [0x68, 0x65, 0x6c, 0x6c, 0x6f]⟩).2.2.2.2.2.2
    (by decide)

/-- C10, counterexample: a transport whose first `Read` gives the tag `Log`, whose second
`Read` fails with a transport error and whose third `Read` would panic. `Receive` returns
`{Log, ""}` and exactly the transport error, but no fault is intercepted and no diagnostic
reaches the log: the log is empty afterwards and the panicking `Read` is still to come. -/
theorem error_then_fault_logs_nothing :
    Receive smallRuntime [] scriptReader 8
        [.ret [0x02] none, .ret [] (some (.transport 7)), .fault ⟨ascii "boom"⟩] [] =
      some (.done (⟨MessageType.Log, []⟩, some (.transport 7), [.fault ⟨ascii "boom"⟩], [])) :=
  rfl

/-- C10, amended: in `Receive`, an I/O error ends the call at once, so that no fault can follow
it in the same call. For every reader: an error `e` from reading the tag, from reading the
length prefix or from reading the body is returned as it is, exactly `e`, with the reader as
that read left it, the body empty and the log as it was; whatever `Receive` returns, the log is
as it was before the call; and whenever the body of `read` ends in a panic, the named result
`err` is nil at that point. -/
theorem Receive_returns_first_error {σ : Type} (rt : Runtime) (stk : Text) (R : Reader σ)
    (fuel : Nat) (s : σ) (log : Log) :
    (∀ v e s1, binaryRead R fuel s (.tag 0) = some (.ret (v, some e), s1) →
      Receive rt stk R fuel s log = some (.done (⟨0, []⟩, some e, s1, log))) ∧
    (∀ t n e s1 s2 log2, binaryRead R fuel s (.tag 0) = some (.ret (.tag t, none), s1) →
      readUint64Call stk R fuel s1 log = some (n, some e, s2, log2) →
      Receive rt stk R fuel s log = some (.done (⟨t, []⟩, some e, s2, log))) ∧
    (∀ t n bs e s1 s2 s3 log2,
      binaryRead R fuel s (.tag 0) = some (.ret (.tag t, none), s1) →
      readUint64Call stk R fuel s1 log = some (n, none, s2, log2) →
      makeBytes rt (intOfUint64 n) = .made →
      ReadAtLeast R fuel s2 (intOfUint64 n).toNat (intOfUint64 n).toNat =
        some (.ret (bs, some e), s3) →
      Receive rt stk R fuel s log = some (.done (⟨t, []⟩, some e, s3, log))) ∧
    (∀ m err s1 log1, Receive rt stk R fuel s log = some (.done (m, err, s1, log1)) →
      log1 = log) ∧
    (∀ args f p vs s1 log1,
      readBody rt stk R fuel args s log none = some (.done (.panicked f p, vs, s1, log1)) →
      p = none) := by
  refine ⟨?_, ?_, ?_, ?_, ?_⟩
  · intro v e s1 hb
    exact Receive_tag_error rt stk R fuel s s1 log v e hb
  · intro t n e s1 s2 log2 hb hc
    exact Receive_length_error rt stk R fuel s s1 s2 log log2 t n e hb hc
  · intro t n bs e s1 s2 s3 log2 hb hc hm hr
    exact Receive_body_error rt stk R fuel s s1 s2 s3 log log2 t n bs e hb hc hm hr
  · intro m err s1 log1 h
    simp only [Receive] at h
    rcases hr : read rt stk R fuel [.tag 0, .string []] s log with _ | o
    · simp [hr] at h
    · cases o with
      | fatal => simp [hr] at h
      | done a =>
        obtain ⟨err2, vs, s2, log2⟩ := a
        simp only [hr, Option.some.injEq, Outcome.done.injEq, Prod.mk.injEq] at h
        rw [← h.2.2.2]
        exact read_log rt stk R fuel _ s s2 log log2 err2 vs hr
  · intro args f p vs s1 log1 h
    exact (readBody_invariant rt stk R fuel args s log _ vs s1 log1 h).2 f p rfl

/-- C10, witness of the amended claim: the transport of the counterexample; the error comes
from reading the length prefix. -/
theorem Receive_returns_first_error_witness :
    Receive smallRuntime [] scriptReader 8
        [.ret [0x02] none, .ret [] (some (.transport 7)), .fault ⟨ascii "boom"⟩] [] =
      some (.done (⟨0x02, []⟩, some (.transport 7), [.fault ⟨ascii "boom"⟩], [])) :=
  (Receive_returns_first_error smallRuntime [] scriptReader 8
    [.ret [0x02] none, .ret [] (some (.transport 7)), .fault ⟨ascii "boom"⟩] []).2.1
    0x02 0 (.transport 7) [.ret [] (some (.transport 7)), .fault ⟨ascii "boom"⟩]
    [.fault ⟨ascii "boom"⟩] [] rfl rfl

/-- C11, counterexample: on the tag `Log` and the length prefix `2 ^ 63` the allocation of the
body panics, `read` intercepts the fault and returns the diagnostic as the error, and the log,
empty before, is empty afterwards: no line was sent to the logging sink. -/
theorem fault_converted_without_log :
    ∃ chunks1, Receive smallRuntime [] pipeReader 8
        ⟨0x02 :: ([0x80, 0, 0, 0, 0, 0, 0, 0] ++ []), []⟩ [] =
      some (.done (⟨2, []⟩, some (.recovered (panicMessage [] makesliceFault)),
        ⟨[], chunks1⟩, [])) :=
  Receive_pipe_negative smallRuntime [] 8 0x02 [0x80, 0, 0, 0, 0, 0, 0, 0] [] [] []
    (by decide) (by decide) (by decide)

/-- C11, amended: whenever the deferred function of `read` intercepts a fault, the diagnostic
goes to exactly one place. When an earlier error is pending, the message is split at its
newlines and every line is appended to the log, at least one line, and that error stays the
result. When no error is pending, the message becomes the returned error `errors.New(msg)` and
the log is left as it was. -/
theorem recover_logs_only_when_pending (stk : Text) (f : Fault) (log : Log) :
    (∀ e, (recoverHandler stk (.panicked f (some e)) log).2 =
        log ++ splitLines (panicMessage stk f) ∧
      log.length + 1 ≤ (recoverHandler stk (.panicked f (some e)) log).2.length ∧
      (recoverHandler stk (.panicked f (some e)) log).1 = some e) ∧
    recoverHandler stk (.panicked f none) log = (some (.recovered (panicMessage stk f)), log) := by
  refine ⟨fun e => ⟨rfl, ?_, rfl⟩, rfl⟩
  have h := splitLines_ne_nil (panicMessage stk f)
  simp only [recoverHandler, List.length_append]
  have : 0 < (splitLines (panicMessage stk f)).length := List.length_pos.mpr h
  omega

theorem be64_inj (a b : Nat) (ha : a < 2 ^ 64) (hb : b < 2 ^ 64) (h : be64 a = be64 b) :
    a = b := by
  have h1 := beUint64_be64 a
  have h2 := beUint64_be64 b
  rw [h, h2, Nat.mod_eq_of_lt hb, Nat.mod_eq_of_lt ha] at h1
  exact h1.symm

theorem frame_append_inj (m1 m2 : Message) (r1 r2 : List Byte)
    (h1 : m1.Body.length < 2 ^ 64) (h2 : m2.Body.length < 2 ^ 64)
    (h : frame m1 ++ r1 = frame m2 ++ r2) : m1 = m2 ∧ r1 = r2 := by
  obtain ⟨t1, s1⟩ := m1
  obtain ⟨t2, s2⟩ := m2
  simp only [frame, List.cons_append, List.cons.injEq, List.append_assoc] at h
  obtain ⟨ht, hrest⟩ := h
  obtain ⟨hlen, hbody⟩ := List.append_inj hrest (by simp [be64_length])
  have hL : s1.length = s2.length := be64_inj _ _ h1 h2 hlen
  obtain ⟨hs, hr⟩ := List.append_inj hbody hL
  exact ⟨by rw [ht, hs], hr⟩

/-- C12, self-delimiting frames (unique parse): for all messages `m1`, `m2` with bodies shorter
than `2 ^ 63` bytes, written by `Send` to writers whose `Write` calls all succeed, and all byte
sequences `r1`, `r2`: if the bytes `Send` wrote for `m1` followed by `r1` are the bytes `Send`
wrote for `m2` followed by `r2`, then `m1 = m2` and `r1 = r2`; in particular equal bytes come
from equal messages, and for different messages the bytes written for one are not a prefix of
the bytes written for the other. -/
theorem Send_unique_parse {ω1 ω2 : Type} (W1 : Writer ω1) (W2 : Writer ω2) (w1 : ω1) (w2 : ω2)
    (m1 m2 : Message) (r1 r2 : List Byte)
    (hW1 : ∀ w p, (W1.Write w p).1.2 = none) (hW2 : ∀ w p, (W2.Write w p).1.2 = none)
    (h1 : m1.Body.length < 2 ^ 63) (h2 : m2.Body.length < 2 ^ 63) :
    (presented (Send W1 w1 m1).2.2 ++ r1 = presented (Send W2 w2 m2).2.2 ++ r2 →
      m1 = m2 ∧ r1 = r2) ∧
    (presented (Send W1 w1 m1).2.2 = presented (Send W2 w2 m2).2.2 → m1 = m2) ∧
    (m1 ≠ m2 → ¬ presented (Send W1 w1 m1).2.2 <+: presented (Send W2 w2 m2).2.2) := by
  have a1 : m1.Body.length < 2 ^ 64 := by omega
  have a2 : m2.Body.length < 2 ^ 64 := by omega
  rw [(Send_presented W1 w1 m1 hW1).2, (Send_presented W2 w2 m2 hW2).2]
  refine ⟨frame_append_inj m1 m2 r1 r2 a1 a2, ?_, ?_⟩
  · intro h
    exact (frame_append_inj m1 m2 [] [] a1 a2 (by simpa using h)).1
  · rintro hne ⟨r, hr⟩
    exact hne (frame_append_inj m1 m2 r [] a1 a2 (by simpa using hr)).1

/-- C12, witness: the bytes that `Send` writes to a buffer for `{Log, "a"}` are not a prefix of
those it writes for `{Log, "ab"}`, although `"a"` is a prefix of `"ab"`. -/
theorem Send_unique_parse_witness :
    ¬ presented (Send bufWriter [] ⟨MessageType.Log, [0x61]⟩).2.2 <+:
      presented (Send bufWriter [] ⟨MessageType.Log, [0x61, 0x62]⟩).2.2 :=
  (Send_unique_parse bufWriter bufWriter [] [] ⟨MessageType.Log, [0x61]⟩
    ⟨MessageType.Log, [0x61, 0x62]⟩ [] [] (fun _ _ => rfl) (fun _ _ => rfl) (by decide)
    (by decide)).2.2 (by decide)

/-- C13, `Errorf` is `Send` with the tag `Error`: for every writer in every state, every format
string and every list of operands, whatever `fmt.Sprintf` makes of them, `Errorf` issues the
same `Write` calls, leaves the writer in the same state and returns the same error as `Send`
on the message `{Error, Sprintf(format, args...)}`; on a buffer it returns nil and appends the
byte 1, the length of the formatted text as a big-endian `uint64`, and the text. -/
theorem Errorf_eq_Send {ω α : Type} (sprintf : Text → List α → Text) (W : Writer ω) (w : ω)
    (format : Text) (args : List α) :
    Errorf sprintf W w format args = Send W w ⟨MessageType.Error, sprintf format args⟩ ∧
    ∀ buf, Errorf sprintf bufWriter buf format args =
      (none, buf ++ 1 :: (be64 (sprintf format args).length ++ sprintf format args),
        [⟨[1], 1, none⟩, ⟨be64 (sprintf format args).length, 8, none⟩,
          ⟨sprintf format args, (sprintf format args).length, none⟩]) := by
  refine ⟨rfl, fun buf => ?_⟩
  have e : Errorf sprintf bufWriter buf format args =
    Send bufWriter buf ⟨MessageType.Error, sprintf format args⟩ := rfl
  rw [e, Send_bufWriter]
  rfl

/-- C13, witness: with the format `"bad arg: %d"` and the operand 7, which `fmt.Sprintf` makes
into `"bad arg: 7"`, `Errorf` does what `Send({Error, "bad arg: 7"})` does, and a buffer gets
`01`, the length 10 as eight bytes, and the ten bytes of `bad arg: 7`. -/
theorem Errorf_eq_Send_witness :
    sprintfFragment (ascii "bad arg: %d") [.int 7] = ascii "bad arg: 7" ∧
    Errorf sprintfFragment bufWriter [] (ascii "bad arg: %d") [.int 7] =
      Send bufWriter [] ⟨MessageType.Error, ascii "bad arg: 7"⟩ ∧
    (Errorf sprintfFragment bufWriter [] (ascii "bad arg: %d") [.int 7]).2.1 =
      [0x01, 0, 0, 0, 0, 0, 0, 0, 10, 0x62, 0x61, 0x64, 0x20, 0x61, 0x72, 0x67, 0x3a, 0x20,
        0x37] :=
  ⟨by decide,
   (Errorf_eq_Send sprintfFragment bufWriter [] (ascii "bad arg: %d") [.int 7]).1.trans
     (by decide),
   by decide⟩

/-- C14, `Logf` is `Errorf` tagged `Log`: for every writer, format string and list of operands,
`Logf` does what `Send` does on the message `{Log, Sprintf(format, args...)}`; and on a writer
whose `Write` calls all succeed, `Errorf` writes the byte 1 and `Logf` the byte 2, each followed
by the same bytes: the length of the formatted text as a big-endian `uint64`, and the text. -/
theorem Logf_eq_Errorf_tagged_Log {ω α : Type} (sprintf : Text → List α → Text) (W : Writer ω)
    (w : ω) (format : Text) (args : List α) (hW : ∀ w p, (W.Write w p).1.2 = none) :
    Logf sprintf W w format args = Send W w ⟨MessageType.Log, sprintf format args⟩ ∧
    presented (Errorf sprintf W w format args).2.2 =
      1 :: (be64 (sprintf format args).length ++ sprintf format args) ∧
    presented (Logf sprintf W w format args).2.2 =
      2 :: (be64 (sprintf format args).length ++ sprintf format args) ∧
    presented (Logf sprintf W w format args).2.2 =
      2 :: (presented (Errorf sprintf W w format args).2.2).tail := by
  have hE := (Send_presented W w ⟨MessageType.Error, sprintf format args⟩ hW).2
  have hL := (Send_presented W w ⟨MessageType.Log, sprintf format args⟩ hW).2
  have e1 : Errorf sprintf W w format args =
    Send W w ⟨MessageType.Error, sprintf format args⟩ := rfl
  have e2 : Logf sprintf W w format args =
    Send W w ⟨MessageType.Log, sprintf format args⟩ := rfl
  rw [e1, e2, hE, hL]
  exact ⟨rfl, rfl, rfl, rfl⟩

/-- C14, witness: the format `"n=%d"` and the operand 3 on a buffer. -/
theorem Logf_eq_Errorf_tagged_Log_witness :
    presented (Logf sprintfFragment bufWriter [] (ascii "n=%d") [.int 3]).2.2 =
      2 :: (presented (Errorf sprintfFragment bufWriter [] (ascii "n=%d") [.int 3]).2.2).tail :=
  (Logf_eq_Errorf_tagged_Log sprintfFragment bufWriter [] (ascii "n=%d") [.int 3]
    (fun _ _ => rfl)).2.2.2

/-- C15, the constants of `MessageType`: their values on the wire are `Error = 1`, `Log = 2`,
`Call = 3`, `Hijack = 4`, `ReadLineRequest = 5`, `ReadLineResponse = 6`; they are pairwise
distinct, and none of them is 0, the zero value of `MessageType`. -/
theorem MessageType_constants :
    MessageType.Error = 1 ∧ MessageType.Log = 2 ∧ MessageType.Call = 3 ∧
    MessageType.Hijack = 4 ∧ MessageType.ReadLineRequest = 5 ∧
    MessageType.ReadLineResponse = 6 ∧
    [MessageType.Error, MessageType.Log, MessageType.Call, MessageType.Hijack,
      MessageType.ReadLineRequest, MessageType.ReadLineResponse].Nodup ∧
    (0 : MessageType) ∉ [MessageType.Error, MessageType.Log, MessageType.Call,
      MessageType.Hijack, MessageType.ReadLineRequest, MessageType.ReadLineResponse] ∧
    (Send bufWriter [] ⟨MessageType.ReadLineResponse, []⟩).2.1.head? = some 6 := by
  decide

/-- C16, decode characterisation: for every finite byte sequence `bs` held by a transport that
then ends, with `N` the big-endian value of `bs[1..9)`, in a process that can allocate the `N`
bytes of a body that is all there: `Receive` returns a nil error if and only if `len(bs) ≥ 9`,
`N < 2 ^ 63` and `len(bs) ≥ 9 + N`; in that case the message is `{bs[0], bs[9 .. 9+N)}` and the
transport is left holding `bs[9+N ..]` (so with `N = 0` the nine bytes are enough and nothing
after them is read). In every other case `Receive` returns a non-nil error, unless the process
ends because it cannot allocate the `N` bytes of a body that is not all there. -/
theorem Receive_nil_iff (rt : Runtime) (stk : Text) (fuel : Nat) (bs : List Byte)
    (chunks : List Nat) (log : Log) (hf : 8 ≤ fuel) (hf2 : bs.length < fuel)
    (hmem : 9 + beUint64 ((bs.drop 1).take 8) ≤ bs.length →
      beUint64 ((bs.drop 1).take 8) < 2 ^ 63 →
      makeBytes rt (beUint64 ((bs.drop 1).take 8) : Int) = .made) :
    ∃ o, Receive rt stk pipeReader fuel ⟨bs, chunks⟩ log = some o ∧
      ((∃ m p, o = .done (m, none, p, log)) ↔
        9 ≤ bs.length ∧ beUint64 ((bs.drop 1).take 8) < 2 ^ 63 ∧
          9 + beUint64 ((bs.drop 1).take 8) ≤ bs.length) ∧
      (∀ m p log1, o = .done (m, none, p, log1) → bs.head? = some m.Typ ∧
        m.Body = (bs.drop 9).take (beUint64 ((bs.drop 1).take 8)) ∧
        p.data = bs.drop (9 + beUint64 ((bs.drop 1).take 8))) ∧
      (bs.length < 9 ∨
          makeBytes rt (intOfUint64 (beUint64 ((bs.drop 1).take 8))) ≠ .outOfMemory →
        ∃ m err p, o = .done (m, err, p, log)) := by
  cases bs with
  | nil =>
    obtain ⟨c1, hc1⟩ := Receive_pipe_empty rt stk fuel chunks log (by omega)
    exact ⟨_, hc1, by simp, by simp, fun _ => ⟨_, _, _, rfl⟩⟩
  | cons t data =>
    simp only [List.length_cons] at hf2
    by_cases h8 : data.length < 8
    · obtain ⟨c1, hc1⟩ := Receive_pipe_short_length rt stk fuel t data chunks log h8 (by omega)
      refine ⟨_, hc1, ?_, ?_, fun _ => ⟨_, _, _, rfl⟩⟩
      · simp only [List.length_cons]
        constructor
        · rintro ⟨m, p, h⟩
          simp only [Outcome.done.injEq, Prod.mk.injEq] at h
          have := h.2.1
          split at this <;> simp at this
        · intro h; omega
      · intro m p log1 h
        simp only [Outcome.done.injEq, Prod.mk.injEq] at h
        have := h.2.1
        split at this <;> simp at this
    · have hd : data = data.take 8 ++ data.drop 8 := (List.take_append_drop 8 data).symm
      have hl : (data.take 8).length = 8 := by simp only [List.length_take]; omega
      have hr : (data.drop 8).length = data.length - 8 := by simp
      have e9 : (t :: data).drop 9 = data.drop 8 := rfl
      have e1 : ((t :: data).drop 1).take 8 = data.take 8 := rfl
      have elen : (t :: data).length = 9 + (data.drop 8).length := by
        simp only [List.length_cons, List.length_drop]; omega
      have e10 : ∀ n, (t :: data).drop (9 + n) = (data.drop 8).drop n := by
        intro n
        rw [show 9 + n = (8 + n) + 1 by omega, List.drop_succ_cons, List.drop_drop]
      rw [e1, elen] at hmem
      rw [e1, e9, elen, e10]
      generalize data.take 8 = hdr at hd hl hmem
      generalize data.drop 8 = rest at hd hr e9 elen e10 hmem
      have h64 := beUint64_lt hdr hl
      rcases hmk : makeBytes rt (intOfUint64 (beUint64 hdr)) with _ | _ | _
      · obtain ⟨hN, _, _⟩ := makeBytes_made_nat rt _ h64 hmk
        by_cases hb : beUint64 hdr ≤ rest.length
        · obtain ⟨c1, hc1⟩ := Receive_pipe_ok rt stk fuel t hdr rest chunks log hl hmk hb hf
            (by omega)
          rw [← hd] at hc1
          refine ⟨_, hc1, ?_, ?_, fun _ => ⟨_, _, _, rfl⟩⟩
          · constructor
            · intro _; omega
            · intro _; exact ⟨_, _, rfl⟩
          · intro m p log1 h
            simp only [Outcome.done.injEq, Prod.mk.injEq] at h
            rw [← h.1, ← h.2.2.1]
            exact ⟨rfl, rfl, rfl⟩
        · obtain ⟨c1, hc1⟩ := Receive_pipe_short_body rt stk fuel t hdr rest chunks log hl hmk
            (by omega) hf (by omega)
          rw [← hd] at hc1
          refine ⟨_, hc1, ?_, ?_, fun _ => ⟨_, _, _, rfl⟩⟩
          · constructor
            · rintro ⟨m, p, h⟩
              simp only [Outcome.done.injEq, Prod.mk.injEq] at h
              have := h.2.1
              split at this <;> simp at this
            · intro h; omega
          · intro m p log1 h
            simp only [Outcome.done.injEq, Prod.mk.injEq] at h
            have := h.2.1
            split at this <;> simp at this
      · obtain ⟨c1, hc1⟩ := Receive_pipe_out_of_range rt stk fuel t hdr rest chunks log hl
          hmk hf
        rw [← hd] at hc1
        refine ⟨_, hc1, ?_, ?_, fun _ => ⟨_, _, _, rfl⟩⟩
        · constructor
          · rintro ⟨m, p, h⟩
            simp at h
          · rintro ⟨_, hN, hb⟩
            have := makeBytes_of_nat rt _ hN (hmem hb hN)
            rw [hmk] at this
            cases this
        · intro m p log1 h
          simp at h
      · have hc1 := Receive_pipe_fatal rt stk fuel t hdr rest chunks log hl hmk hf
        rw [← hd] at hc1
        refine ⟨_, hc1, ?_, ?_, ?_⟩
        · constructor
          · rintro ⟨m, p, h⟩
            cases h
          · rintro ⟨_, hN, hb⟩
            have := makeBytes_of_nat rt _ hN (hmem hb hN)
            rw [hmk] at this
            cases this
        · intro m p log1 h
          cases h
        · rintro (h | h)
          · omega
          · exact absurd rfl h

/-- C16, witness: the nine bytes `02 00 00 00 00 00 00 00 00` followed by `09`: here `N = 0`,
`Receive` returns `{Log, ""}` with a nil error and leaves the byte `09`. -/
theorem Receive_nil_iff_witness :
    ∃ o, Receive smallRuntime [] pipeReader 11 ⟨[0x02, 0, 0, 0, 0, 0, 0, 0, 0, 0x09], []⟩ [] =
        some o ∧
      ((∃ m p, o = .done (m, none, p, [])) ↔
        9 ≤ [(0x02 : Byte), 0, 0, 0, 0, 0, 0, 0, 0, 0x09].length ∧
          beUint64 (([(0x02 : Byte), 0, 0, 0, 0, 0, 0, 0, 0, 0x09].drop 1).take 8) < 2 ^ 63 ∧
          9 + beUint64 (([(0x02 : Byte), 0, 0, 0, 0, 0, 0, 0, 0, 0x09].drop 1).take 8) ≤
            [(0x02 : Byte), 0, 0, 0, 0, 0, 0, 0, 0, 0x09].length) ∧
      (∀ m p log1, o = .done (m, none, p, log1) →
        [(0x02 : Byte), 0, 0, 0, 0, 0, 0, 0, 0, 0x09].head? = some m.Typ ∧
        m.Body = ([(0x02 : Byte), 0, 0, 0, 0, 0, 0, 0, 0, 0x09].drop 9).take
          (beUint64 (([(0x02 : Byte), 0, 0, 0, 0, 0, 0, 0, 0, 0x09].drop 1).take 8)) ∧
        p.data = [(0x02 : Byte), 0, 0, 0, 0, 0, 0, 0, 0, 0x09].drop
          (9 + beUint64 (([(0x02 : Byte), 0, 0, 0, 0, 0, 0, 0, 0, 0x09].drop 1).take 8))) ∧
      ([(0x02 : Byte), 0, 0, 0, 0, 0, 0, 0, 0, 0x09].length < 9 ∨
          makeBytes smallRuntime (intOfUint64
            (beUint64 (([(0x02 : Byte), 0, 0, 0, 0, 0, 0, 0, 0, 0x09].drop 1).take 8))) ≠
              .outOfMemory →
        ∃ m err p, o = .done (m, err, p, [])) :=
  Receive_nil_iff smallRuntime [] 11 [0x02, 0, 0, 0, 0, 0, 0, 0, 0, 0x09] [] [] (by decide)
    (by decide) (fun _ _ => by decide)

/-- C17, result on failure: for every reader and every call of `Receive` that returns a non-nil
error, the returned message has an empty body, and its `Type` is 0 when reading the tag byte
ended in an error or in a panic, and is the tag byte when the tag byte was read: bytes of a body
that arrived before the failure are not in the message. -/
theorem Receive_failure_result {σ : Type} (rt : Runtime) (stk : Text) (R : Reader σ)
    (fuel : Nat) (s s1 : σ) (log log1 : Log) (m : Message) (e : GoError)
    (h : Receive rt stk R fuel s log = some (.done (m, some e, s1, log1))) :
    m.Body = [] ∧
    (∀ t s2, binaryRead R fuel s (.tag 0) = some (.ret (.tag t, none), s2) → m.Typ = t) ∧
    (∀ f s2, binaryRead R fuel s (.tag 0) = some (.panicked f, s2) → m.Typ = 0) ∧
    (∀ v e0 s2, binaryRead R fuel s (.tag 0) = some (.ret (v, some e0), s2) → m.Typ = 0) := by
  obtain ⟨h0, h1, h2, h3⟩ := Receive_failure_shape rt stk R fuel s s1 log log1 m e h
  refine ⟨?_, ?_, ?_, ?_⟩
  · rcases hb : binaryRead R fuel s (.tag 0) with _ | ⟨c, s2⟩
    · exact absurd hb h0
    · cases c with
      | panicked f => rw [h1 f s2 hb]
      | ret a =>
        obtain ⟨v, err⟩ := a
        cases err with
        | some e0 => rw [h2 v e0 s2 hb]
        | none =>
          obtain ⟨t, _, hm⟩ := h3 v s2 hb
          rw [hm]
  · intro t s2 hb
    obtain ⟨t1, hv, hm⟩ := h3 _ s2 hb
    cases hv
    rw [hm]
  · intro f s2 hb
    rw [h1 f s2 hb]
  · intro v e0 s2 hb
    rw [h2 v e0 s2 hb]

/-- C17, witness: the frame of `{Log, "hello"}` cut after the first byte of the body: the
byte `68` arrived, and the message returned is `{Log, ""}`. -/
theorem Receive_failure_result_witness :
    (⟨2, []⟩ : Message).Body = [] ∧
    (∀ t s2, binaryRead pipeReader 8 ⟨[0x02, 0, 0, 0, 0, 0, 0, 0, 0x05, 0x68], []⟩ (.tag 0) =
      some (.ret (.tag t, none), s2) → (⟨2, []⟩ : Message).Typ = t) ∧
    (∀ f s2, binaryRead pipeReader 8 ⟨[0x02, 0, 0, 0, 0, 0, 0, 0, 0x05, 0x68], []⟩ (.tag 0) =
      some (.panicked f, s2) → (⟨2, []⟩ : Message).Typ = 0) ∧
    (∀ v e0 s2, binaryRead pipeReader 8 ⟨[0x02, 0, 0, 0, 0, 0, 0, 0, 0x05, 0x68], []⟩ (.tag 0) =
      some (.ret (v, some e0), s2) → (⟨2, []⟩ : Message).Typ = 0) :=
  Receive_failure_result smallRuntime [] pipeReader 8
    ⟨[0x02, 0, 0, 0, 0, 0, 0, 0, 0x05, 0x68], []⟩ ⟨[], []⟩ [] [] ⟨2, []⟩ .ErrUnexpectedEOF rfl

/-- C18, no pending error at recovery: for every reader (its `Read` calls may return bytes, an
error, or panic), every list of arguments and every bound on the calls of a loop, when the body
of `read` ends in a panic the named result `err` is nil at that point; hence the deferred
function returns the description of the fault as the error, and the branch that only logs is
never taken: whatever `read` returns, the log is as it was before the call. The same holds for
the call `read(src, &n)` that `read` makes for a string, which is `read` on one `uint64`. -/
theorem read_never_panics_with_pending_error {σ : Type} (rt : Runtime) (stk : Text)
    (R : Reader σ) (fuel : Nat) (args : List Value) (s : σ) (log : Log) :
    (∀ f p vs s1 log1,
      readBody rt stk R fuel args s log none = some (.done (.panicked f p, vs, s1, log1)) →
      p = none ∧
      read rt stk R fuel args s log =
        some (.done (some (.recovered (panicMessage stk f)), vs, s1, log))) ∧
    (∀ err vs s1 log1, read rt stk R fuel args s log = some (.done (err, vs, s1, log1)) →
      log1 = log) ∧
    (∀ n err s1 log1, readUint64Call stk R fuel s log = some (n, err, s1, log1) →
      read rt stk R fuel [.uint64 0] s log = some (.done (err, [.uint64 n], s1, log1)) ∧
      log1 = log) := by
  refine ⟨?_, ?_, ?_⟩
  · intro f p vs s1 log1 h
    obtain ⟨hlog, hp⟩ := readBody_invariant rt stk R fuel args s log _ vs s1 log1 h
    have hp2 := hp f p rfl
    subst hp2 hlog
    exact ⟨rfl, by simp [read, h, recoverHandler]⟩
  · intro err vs s1 log1 h
    exact read_log rt stk R fuel args s s1 log log1 err vs h
  · intro n err s1 log1 h
    refine ⟨?_, readUint64Call_log stk R fuel s s1 log log1 n err h⟩
    rw [read_uint64, h]
    rfl

/-- C18, witness: a reader that panics in its first `Read`: the body of `Receive` panics while
`err` is nil, and `read` returns the description of the fault. -/
theorem read_never_panics_with_pending_error_witness :
    (none : Option GoError) = none ∧
    read smallRuntime [] faultAfter 8 [.tag 0, .string []] 0 [] =
      some (.done (some (.recovered (panicMessage [] ⟨ascii "boom"⟩)), [.tag 0, .string []], 0,
        [])) :=
  (read_never_panics_with_pending_error smallRuntime [] faultAfter 8 [.tag 0, .string []] 0
    []).1 ⟨ascii "boom"⟩ none [.tag 0, .string []] 0 [] rfl

end Core
